import Mathlib

/-!
Verification development for the cafe-sales data cleaning pipeline
(`scripts/cleaning-data.py`).

The script loads a CSV into a table, coerces the three numeric columns with
`pd.to_numeric(..., errors='coerce')` and the date column with
`pd.to_datetime(..., errors='coerce')`, replaces the sentinel strings
`['', ' ', 'UNKNOWN', 'ERROR']` by the missing marker (`np.nan`), drops the
rows missing an essential value, fills the two contextual columns with the
column mode (`Series.mode()[0]`, i.e. the smallest value of the sorted list
of most frequent values), recomputes `Total Spent = Quantity * Price Per
Unit`, drops exact duplicate rows keeping the first occurrence, and writes
the result back to CSV.

The embedding models a cell as `Option String` before coercion (`none` is
the missing marker `NaN`), and a typed row afterwards: dates as a
year/month/day structure, numbers as rationals (exact decimal semantics).
-/

/-! ### Digits, decimal parsing and printing -/

/-- Value of a decimal digit character, `none` for any other character. -/
def charToDigit (c : Char) : Option Nat :=
  if 48 ≤ c.toNat ∧ c.toNat ≤ 57 then some (c.toNat - 48) else none

/-- Value of a most-significant-first digit list. -/
def digitsVal (l : List Nat) : Nat := l.foldl (fun a d => 10 * a + d) 0

/-- Parse a nonempty all-digit character list into a natural number. -/
def parseNatDigits (l : List Char) : Option Nat :=
  match l.mapM charToDigit with
  | some ds => if l.isEmpty then none else some (digitsVal ds)
  | none => none

/-- Unsigned decimal parse: digits, optionally with one decimal point; at
least one digit overall (`float` accepts `"3."` and `".5"` but not `"."`). -/
def parseUnsigned (l : List Char) : Option ℚ :=
  match l.dropWhile (fun c => c != '.') with
  | [] => (parseNatDigits (l.takeWhile (fun c => c != '.'))).map (fun n => (n : ℚ))
  | _ :: fp =>
    match (l.takeWhile (fun c => c != '.')).mapM charToDigit, fp.mapM charToDigit with
    | some ids, some fds =>
      if (l.takeWhile (fun c => c != '.')).isEmpty && fp.isEmpty then none
      else some ((digitsVal ids : ℚ) + (digitsVal fds : ℚ) / (10 ^ fp.length : ℚ))
    | _, _ => none

/-- Model of `pd.to_numeric(cell, errors='coerce')` on a single string:
a plain decimal number with optional leading minus sign, else `NaN`. -/
def parseNum (s : String) : Option ℚ :=
  match s.data with
  | '-' :: rest => (parseUnsigned rest).map (fun q => -q)
  | l => parseUnsigned l

/-- A calendar date, the payload of a parsed `Transaction Date` cell. -/
structure Date where
  year : Nat
  month : Nat
  day : Nat
deriving DecidableEq

/-- Model of `pd.to_datetime(cell, errors='coerce')` on a single string in
the `YYYY-MM-DD` format of the source data: unparseable values become
`NaN` (`none`). -/
def parseDate (s : String) : Option Date :=
  match s.data with
  | [y1, y2, y3, y4, '-', m1, m2, '-', d1, d2] =>
    match charToDigit y1, charToDigit y2, charToDigit y3, charToDigit y4,
          charToDigit m1, charToDigit m2, charToDigit d1, charToDigit d2 with
    | some a, some b, some c, some d, some e, some f, some g, some h =>
      let y := ((a * 10 + b) * 10 + c) * 10 + d
      let mo := e * 10 + f
      let da := g * 10 + h
      if 1 ≤ mo ∧ mo ≤ 12 ∧ 1 ≤ da ∧ da ≤ 31 then some ⟨y, mo, da⟩ else none
    | _, _, _, _, _, _, _, _ => none
  | _ => none

/-- Most-significant-first digit characters of `n`; the first argument is
structural fuel (any fuel `≥ n` is exact). -/
def natCharsAux : Nat → Nat → List Char
  | 0, _ => []
  | fuel + 1, n =>
    if n = 0 then [] else natCharsAux fuel (n / 10) ++ [Nat.digitChar (n % 10)]

/-- Decimal digit characters of a natural number (`"0"` for zero). -/
def natToChars (n : Nat) : List Char :=
  if n = 0 then ['0'] else natCharsAux n n

/-- Exactly `k` digit characters of `v < 10 ^ k`, zero padded. -/
def padChars : Nat → Nat → List Char
  | 0, _ => []
  | k + 1, v => Nat.digitChar (v / 10 ^ k) :: padChars k (v % 10 ^ k)

/-- Serialization of a date cell as written to the output CSV. -/
def printDate (d : Date) : String :=
  ⟨padChars 4 d.year ++ '-' :: (padChars 2 d.month ++ '-' :: padChars 2 d.day)⟩

/-- Decimal serialization of a nonnegative rational whose denominator
divides a power of ten (the only numbers the pipeline produces); integers
are printed with a trailing `".0"` in float style. -/
def printQnn (q : ℚ) : List Char :=
  match (List.range (q.den + 1)).find? (fun k => 10 ^ k % q.den == 0) with
  | some k =>
    let m := q.num.toNat * (10 ^ k / q.den)
    if k = 0 then natToChars m ++ ['.', '0']
    else natToChars (m / 10 ^ k) ++ '.' :: padChars k (m % 10 ^ k)
  | none => []

/-- Serialization of a numeric cell as written to the output CSV. -/
def printQ (q : ℚ) : String :=
  if q < 0 then ⟨'-' :: printQnn (-q)⟩ else ⟨printQnn q⟩

/-! ### The table -/

/-- A raw cell as loaded from CSV: `none` is the missing marker. -/
abbrev RawCell := Option String

/-- A raw row: the seven named columns plus any extra pass-through columns. -/
structure RawRow where
  transactionDate : RawCell
  pricePerUnit : RawCell
  quantity : RawCell
  item : RawCell
  totalSpent : RawCell
  location : RawCell
  paymentMethod : RawCell
  extra : List RawCell
deriving DecidableEq

/-- A typed row after the type-coercion stage. -/
structure Row where
  transactionDate : Option Date
  pricePerUnit : Option ℚ
  quantity : Option ℚ
  item : RawCell
  totalSpent : Option ℚ
  location : RawCell
  paymentMethod : RawCell
  extra : List RawCell
deriving DecidableEq

/-- Step 1 of the script: coerce the three numeric columns and the date
column cell-wise; all other columns are untouched. -/
def coerceRow (r : RawRow) : Row :=
  { transactionDate := r.transactionDate.bind parseDate
    pricePerUnit := r.pricePerUnit.bind parseNum
    quantity := r.quantity.bind parseNum
    item := r.item
    totalSpent := r.totalSpent.bind parseNum
    location := r.location
    paymentMethod := r.paymentMethod
    extra := r.extra }

/-- The sentinel strings of `values_to_treat_as_null`. -/
def nullSentinels : List String := ["", " ", "UNKNOWN", "ERROR"]

/-- Step 2 on one cell: `df.replace(values_to_treat_as_null, np.nan)` is an
exact string match replacement. -/
def stdCell (c : RawCell) : RawCell :=
  c.bind (fun s => if s ∈ nullSentinels then none else some s)

/-- Step 2 on a row: the replacement scans every column; the already typed
numeric/date cells never equal a sentinel string, so only the string
columns (and extra pass-through columns) can change. -/
def stdRow (r : Row) : Row :=
  { r with
    item := stdCell r.item
    location := stdCell r.location
    paymentMethod := stdCell r.paymentMethod
    extra := r.extra.map stdCell }

/-- Steps 1 and 2 over the whole table. -/
def prepRows (t : List RawRow) : List Row := (t.map coerceRow).map stdRow

/-- Row predicate of `dropna(subset=essential_columns)`: all four essential
cells present. -/
def essentialOk (r : Row) : Bool :=
  r.transactionDate.isSome && r.pricePerUnit.isSome &&
    r.quantity.isSome && r.item.isSome

/-- Step 3a: drop the rows with a missing essential value. -/
def dropStage (l : List Row) : List Row := l.filter essentialOk

/-- The non-missing values of a column, in table order (`Series.dropna`). -/
def nonMissing (l : List RawCell) : List String := l.filterMap id

/-- Smallest string of a list (`none` on the empty list). -/
def minString : List String → Option String
  | [] => none
  | s :: rest =>
    match minString rest with
    | none => some s
    | some m => if s < m then some s else some m

/-- Model of `Series.mode()[0]`: pandas returns every most-frequent
non-missing value sorted ascending, and `[0]` selects the smallest;
`none` models the `KeyError` raised on an all-missing column. -/
def modeOf (l : List String) : Option String :=
  let maxCnt := (l.map (fun v => l.count v)).foldr max 0
  minString (l.filter (fun v => l.count v == maxCnt))

/-- Step 3b for `Location`: `fillna(mode)`. -/
def fillLocation (m : String) (r : Row) : Row :=
  { r with location := some (r.location.getD m) }

/-- Step 3b for `Payment Method`: `fillna(mode)`. -/
def fillPayment (m : String) (r : Row) : Row :=
  { r with paymentMethod := some (r.paymentMethod.getD m) }

/-- Step 3c: `df['Total Spent'] = df['Quantity'] * df['Price Per Unit']`
(`NaN` propagates through the product). -/
def recalcRow (r : Row) : Row :=
  { r with
    totalSpent :=
      match r.quantity, r.pricePerUnit with
      | some q, some p => some (q * p)
      | _, _ => none }

/-- Model of `drop_duplicates()` (keep the first occurrence): `seen` holds
the rows already emitted or skipped. -/
def dedupSeen (seen : List Row) : List Row → List Row
  | [] => []
  | r :: rs =>
    if r ∈ seen then dedupSeen (r :: seen) rs
    else r :: dedupSeen (r :: seen) rs

/-- Model of `df.duplicated().sum()`: the number of rows equal to an
earlier row. -/
def dupCountSeen (seen : List Row) : List Row → Nat
  | [] => 0
  | r :: rs => (if r ∈ seen then 1 else 0) + dupCountSeen (r :: seen) rs

/-- The table just before deduplication: steps 1 to 3; `none` models the
unhandled `KeyError` raised by `mode()[0]` on an all-missing contextual
column. -/
def preDedup (t : List RawRow) : Option (List Row) :=
  match modeOf (nonMissing ((dropStage (prepRows t)).map Row.location)) with
  | none => none
  | some ml =>
    match modeOf (nonMissing
        (((dropStage (prepRows t)).map (fillLocation ml)).map Row.paymentMethod)) with
    | none => none
    | some mp =>
      some ((((dropStage (prepRows t)).map (fillLocation ml)).map
        (fillPayment mp)).map recalcRow)

/-- The in-memory cleaning pipeline, steps 1 to 4 of the script. -/
def cleanRows (t : List RawRow) : Option (List Row) :=
  (preDedup t).map (dedupSeen [])

/-- Serialization of one cleaned row as written by
`to_csv(output_file, index=False)`. -/
def printRow (r : Row) : RawRow :=
  { transactionDate := r.transactionDate.map printDate
    pricePerUnit := r.pricePerUnit.map printQ
    quantity := r.quantity.map printQ
    item := r.item
    totalSpent := r.totalSpent.map printQ
    location := r.location
    paymentMethod := r.paymentMethod
    extra := r.extra }

/-! ### The surrounding `clean_data` driver -/

/-- Outcome of `pd.read_csv(input_file)`: only `FileNotFoundError` is
caught by the script. -/
inductive LoadStatus
  | ok
  | fileNotFound
  | notReadable
deriving DecidableEq

/-- An input file: its load status, its header and its parsed rows. -/
structure InputFile where
  status : LoadStatus
  header : List String
  rows : List RawRow

/-- Outcome of one run of `clean_data`: the graceful early return of the
`except FileNotFoundError` handler, an unhandled exception terminating the
process (no output file written), or a written output file. -/
inductive RunResult
  | haltedGracefully
  | crash (msg : String)
  | ok (written : List RawRow)
deriving DecidableEq

def numericColumns : List String := ["Price Per Unit", "Quantity", "Total Spent"]

def essentialColumns : List String :=
  ["Transaction Date", "Price Per Unit", "Quantity", "Item"]

def requiredColumns : List String :=
  ["Transaction Date", "Price Per Unit", "Quantity", "Item",
   "Total Spent", "Location", "Payment Method"]

def keyErrorMsg (c : String) : String := "KeyError: " ++ c

/-- The whole `clean_data(input_file, output_file)` function.  Column reads
are replayed in source order: the numeric loop, the date column, the
`dropna` subset, then each contextual column followed by its `mode()[0]`
(which raises `KeyError: 0` on an all-missing column).  A missing column
raises an unhandled `KeyError`; an unreadable (but existing) input raises
an unhandled `PermissionError` since only `FileNotFoundError` is caught. -/
def clean_data (f : InputFile) : RunResult :=
  match f.status with
  | .fileNotFound => .haltedGracefully
  | .notReadable => .crash ("PermissionError")
  | .ok =>
    match (numericColumns ++ ["Transaction Date"]).find?
        (fun c => !(f.header.contains c)) with
    | some c => .crash (keyErrorMsg c)
    | none =>
      match essentialColumns.find? (fun c => !(f.header.contains c)) with
      | some c => .crash (keyErrorMsg c)
      | none =>
        if !(f.header.contains ("Location")) then
          .crash (keyErrorMsg ("Location"))
        else
          match modeOf (nonMissing ((dropStage (prepRows f.rows)).map
              Row.location)) with
          | none => .crash (keyErrorMsg ("0"))
          | some ml =>
            if !(f.header.contains ("Payment Method")) then
              .crash (keyErrorMsg ("Payment Method"))
            else
              match modeOf (nonMissing (((dropStage (prepRows f.rows)).map
                  (fillLocation ml)).map Row.paymentMethod)) with
              | none => .crash (keyErrorMsg ("0"))
              | some mp =>
                .ok ((dedupSeen [] ((((dropStage (prepRows f.rows)).map
                  (fillLocation ml)).map (fillPayment mp)).map recalcRow)).map
                    printRow)

/-- Rows dropped by step 3a: count of prepared rows missing an essential
value (the script reports `initial_rows - len(df_clean)`). -/
def droppedCount (t : List RawRow) : Nat :=
  (prepRows t).countP (fun r => !(essentialOk r))

/-! ### Digit lemmas -/

theorem charToDigit_digitChar {d : Nat} (h : d < 10) :
    charToDigit (Nat.digitChar d) = some d := by
  interval_cases d <;> rfl

theorem charToDigit_lt {c : Char} {d : Nat} (h : charToDigit c = some d) :
    d < 10 := by
  unfold charToDigit at h
  split at h
  · rename_i hc
    injection h with h
    omega
  · exact Option.noConfusion h

theorem charToDigit_ne_dot {c : Char} {d : Nat} (h : charToDigit c = some d) :
    (c != '.') = true := by
  rcases eq_or_ne c '.' with rfl | hne
  · rw [show charToDigit '.' = none from rfl] at h
    exact Option.noConfusion h
  · simpa using hne

theorem charToDigit_ne_dash {c : Char} {d : Nat} (h : charToDigit c = some d) :
    c ≠ '-' := by
  rintro rfl
  rw [show charToDigit '-' = none from rfl] at h
  exact Option.noConfusion h

theorem digitsVal_from (l : List Nat) :
    ∀ a, l.foldl (fun x d => 10 * x + d) a = a * 10 ^ l.length + digitsVal l := by
  induction l with
  | nil => intro a; simp [digitsVal]
  | cons d rest ih =>
    intro a
    simp only [List.foldl_cons, digitsVal, List.length_cons]
    rw [ih (10 * a + d), ih (10 * 0 + d)]
    ring

theorem digitsVal_cons (d : Nat) (l : List Nat) :
    digitsVal (d :: l) = d * 10 ^ l.length + digitsVal l := by
  have := digitsVal_from l (10 * 0 + d)
  simpa [digitsVal] using this

theorem digitsVal_append_digit (l : List Nat) (d : Nat) :
    digitsVal (l ++ [d]) = 10 * digitsVal l + d := by
  simp [digitsVal, List.foldl_append]

theorem mapM_charToDigit_digitChar (l : List Nat) (h : ∀ d ∈ l, d < 10) :
    (l.map Nat.digitChar).mapM charToDigit = some l := by
  induction l with
  | nil => rfl
  | cons d rest ih =>
    simp only [List.map_cons, List.mapM_cons,
      charToDigit_digitChar (h d (List.mem_cons_self d rest))]
    rw [ih (fun x hx => h x (List.mem_cons_of_mem d hx))]
    rfl

theorem mapM_some_forall {l : List Char} {ds : List Nat}
    (h : l.mapM charToDigit = some ds) :
    ∀ c ∈ l, ∃ d, charToDigit c = some d := by
  induction l generalizing ds with
  | nil => intro c hc; cases hc
  | cons a rest ih =>
    intro c hc
    rw [List.mapM_cons] at h
    cases ha : charToDigit a with
    | none => rw [ha] at h; exact absurd h (by simp)
    | some d =>
      rw [ha] at h
      cases hrest : rest.mapM charToDigit with
      | none => rw [hrest] at h; exact absurd h (by simp)
      | some ds' =>
        rcases List.mem_cons.mp hc with rfl | hc'
        · exact ⟨d, ha⟩
        · exact ih hrest c hc'

theorem natCharsAux_zero : ∀ fuel, natCharsAux fuel 0 = [] := by
  intro fuel; cases fuel <;> rfl

theorem mapM_singleton_digit {d : Nat} (h : d < 10) :
    [Nat.digitChar d].mapM charToDigit = some [d] := by
  simpa using mapM_charToDigit_digitChar [d] (by simpa using h)

theorem natCharsAux_parse :
    ∀ fuel n, 1 ≤ n → n ≤ fuel →
      ∃ ds, (natCharsAux fuel n).mapM charToDigit = some ds ∧
        digitsVal ds = n ∧ natCharsAux fuel n ≠ [] := by
  intro fuel
  induction fuel with
  | zero => intro n h1 h2; omega
  | succ f ih =>
    intro n h1 _
    have hn0 : n ≠ 0 := by omega
    show ∃ ds, (natCharsAux (f + 1) n).mapM charToDigit = some ds ∧ _ ∧ _
    rw [natCharsAux, if_neg hn0]
    by_cases hsmall : n < 10
    · have hdiv : n / 10 = 0 := Nat.div_eq_of_lt hsmall
      rw [hdiv, natCharsAux_zero, List.nil_append]
      refine ⟨[n % 10], ?_, ?_, by simp⟩
      · exact mapM_singleton_digit (Nat.mod_lt _ (by omega))
      · have : n % 10 = n := Nat.mod_eq_of_lt hsmall
        simp [digitsVal, this]
    · have hd1 : 1 ≤ n / 10 := by
        have : 10 ≤ n := by omega
        exact Nat.le_div_iff_mul_le (by omega) |>.mpr (by omega)
      have hd2 : n / 10 ≤ f := by
        have := Nat.div_lt_self (by omega : 0 < n) (by omega : 1 < 10)
        omega
      obtain ⟨ds', hmap, hval, _⟩ := ih (n / 10) hd1 hd2
      refine ⟨ds' ++ [n % 10], ?_, ?_, by simp⟩
      · rw [List.mapM_append, hmap, mapM_singleton_digit (Nat.mod_lt _ (by omega))]
        rfl
      · rw [digitsVal_append_digit, hval]
        omega

theorem natToChars_parse (n : Nat) :
    ∃ ds, (natToChars n).mapM charToDigit = some ds ∧ digitsVal ds = n ∧
      natToChars n ≠ [] := by
  by_cases h : n = 0
  · subst h
    exact ⟨[0], by rfl, by rfl, by simp [natToChars]⟩
  · rw [natToChars, if_neg h]
    exact natCharsAux_parse n n (by omega) le_rfl

theorem parseNatDigits_natToChars (n : Nat) :
    parseNatDigits (natToChars n) = some n := by
  obtain ⟨ds, hmap, hval, hne⟩ := natToChars_parse n
  have hie : (natToChars n).isEmpty = false := by
    cases hnc : natToChars n with
    | nil => exact absurd hnc hne
    | cons a l => rfl
  unfold parseNatDigits
  rw [hmap]
  simp [hie, hval]

theorem padChars_parse :
    ∀ k v, v < 10 ^ k →
      ∃ ds, (padChars k v).mapM charToDigit = some ds ∧ digitsVal ds = v ∧
        ds.length = k ∧ (padChars k v).length = k := by
  intro k
  induction k with
  | zero =>
    intro v hv
    have : v = 0 := by omega
    exact ⟨[], by rfl, by simp [digitsVal, this], rfl, rfl⟩
  | succ j ih =>
    intro v hv
    have hdig : v / 10 ^ j < 10 := by
      rw [Nat.div_lt_iff_lt_mul (Nat.pos_pow_of_pos j (by omega))]
      calc v < 10 ^ (j + 1) := hv
        _ = 10 * 10 ^ j := by rw [pow_succ]; ring
    have hmod : v % 10 ^ j < 10 ^ j := Nat.mod_lt _ (Nat.pos_pow_of_pos j (by omega))
    obtain ⟨ds', hmap, hval, hlen, hclen⟩ := ih (v % 10 ^ j) hmod
    refine ⟨v / 10 ^ j :: ds', ?_, ?_, by simp [hlen], by simp [padChars, hclen]⟩
    · rw [padChars, List.mapM_cons, charToDigit_digitChar hdig, hmap]
      rfl
    · rw [digitsVal_cons, hlen, hval, Nat.mul_comm]
      exact Nat.div_add_mod v (10 ^ j)

/-! ### Splitting a printed number at the decimal point -/

theorem takeWhile_append_stop {p : Char → Bool} (xs : List Char) (y : Char)
    (ys : List Char) (hx : ∀ x ∈ xs, p x = true) (hy : p y = false) :
    (xs ++ y :: ys).takeWhile p = xs ∧ (xs ++ y :: ys).dropWhile p = y :: ys := by
  induction xs with
  | nil => simp [List.takeWhile_cons, List.dropWhile_cons, hy]
  | cons a rest ih =>
    have ha : p a = true := hx a (List.mem_cons_self a rest)
    have hrest : ∀ x ∈ rest, p x = true :=
      fun x hxm => hx x (List.mem_cons_of_mem a hxm)
    obtain ⟨ht, hd⟩ := ih hrest
    constructor
    · simpa [List.takeWhile_cons, ha] using ht
    · simpa [List.dropWhile_cons, ha] using hd

/-! ### Denominators dividing a power of ten -/

/-- The numbers the pipeline manipulates: rationals expressible as finite
decimals. -/
def DecDen (q : ℚ) : Prop := ∃ k, (q.den : ℕ) ∣ 10 ^ k

theorem dvd_ten_pow_self : ∀ d : Nat, d ≠ 0 → (∃ K, d ∣ 10 ^ K) → d ∣ 10 ^ d := by
  intro d
  induction d using Nat.strong_induction_on with
  | _ d ih =>
    intro hd hK
    obtain ⟨K, hK⟩ := hK
    by_cases h2 : 2 ∣ d
    · obtain ⟨d', rfl⟩ := h2
      have hd' : d' ≠ 0 := by rintro rfl; simp at hd
      have hlt : d' < 2 * d' := by omega
      have hdd : d' ∣ 10 ^ K := dvd_trans (dvd_mul_left d' 2) hK
      have := ih d' hlt hd' ⟨K, hdd⟩
      calc 2 * d' ∣ 2 * 10 ^ d' := Nat.mul_dvd_mul_left 2 this
        _ ∣ 10 * 10 ^ d' := Nat.mul_dvd_mul_right (by omega) _
        _ = 10 ^ (d' + 1) := by rw [pow_succ]; ring
        _ ∣ 10 ^ (2 * d') := pow_dvd_pow 10 (by omega)
    · by_cases h5 : 5 ∣ d
      · obtain ⟨d', rfl⟩ := h5
        have hd' : d' ≠ 0 := by rintro rfl; simp at hd
        have hlt : d' < 5 * d' := by omega
        have hdd : d' ∣ 10 ^ K := dvd_trans (dvd_mul_left d' 5) hK
        have := ih d' hlt hd' ⟨K, hdd⟩
        calc 5 * d' ∣ 5 * 10 ^ d' := Nat.mul_dvd_mul_left 5 this
          _ ∣ 10 * 10 ^ d' := Nat.mul_dvd_mul_right (by omega) _
          _ = 10 ^ (d' + 1) := by rw [pow_succ]; ring
          _ ∣ 10 ^ (5 * d') := pow_dvd_pow 10 (by omega)
      · have hc2 : Nat.Coprime 2 d := (Nat.Prime.coprime_iff_not_dvd Nat.prime_two).mpr h2
        have hc5 : Nat.Coprime 5 d := (Nat.Prime.coprime_iff_not_dvd Nat.prime_five).mpr h5
        have hc10 : Nat.Coprime 10 d := Nat.Coprime.mul hc2 hc5
        have hcK : Nat.Coprime d (10 ^ K) := (Nat.Coprime.pow_left K hc10).symm
        have hd1 : d ∣ 1 := hcK ▸ Nat.dvd_gcd dvd_rfl hK
        have : d = 1 := Nat.dvd_one.mp hd1
        subst this
        exact one_dvd _

theorem printQnn_find {q : ℚ} (h : DecDen q) :
    ∃ k, (List.range (q.den + 1)).find? (fun k => 10 ^ k % q.den == 0) = some k ∧
      q.den ∣ 10 ^ k := by
  have hden : q.den ≠ 0 := q.den_nz
  have hd : q.den ∣ 10 ^ q.den := dvd_ten_pow_self q.den hden h
  have hmem : q.den ∈ List.range (q.den + 1) := List.mem_range.mpr (by omega)
  have hpred : (10 ^ q.den % q.den == 0) = true := by
    have hz : 10 ^ q.den % q.den = 0 := Nat.mod_eq_zero_of_dvd hd
    simp [hz]
  have hsome : ((List.range (q.den + 1)).find? (fun k => 10 ^ k % q.den == 0)).isSome := by
    rw [List.find?_isSome]
    exact ⟨q.den, hmem, hpred⟩
  obtain ⟨k, hk⟩ := Option.isSome_iff_exists.mp hsome
  refine ⟨k, hk, ?_⟩
  have := List.find?_some hk
  exact Nat.dvd_of_mod_eq_zero (by simpa using this)

theorem decDen_div_pow (N L : Nat) : DecDen ((N : ℚ) / (10 ^ L : ℚ)) := by
  refine ⟨L, ?_⟩
  have hrw : ((N : ℚ) / (10 ^ L : ℚ)) = Rat.divInt (N : ℤ) ((10 ^ L : ℕ) : ℤ) := by
    rw [Rat.divInt_eq_div]
    push_cast
    ring
  rw [hrw]
  have := Rat.den_dvd (N : ℤ) ((10 ^ L : ℕ) : ℤ)
  exact_mod_cast this

theorem decDen_natCast (n : Nat) : DecDen ((n : ℚ)) := by
  have : ((n : ℚ)) = (n : ℚ) / (10 ^ 0 : ℚ) := by norm_num
  rw [this]
  exact decDen_div_pow n 0

theorem decDen_neg {q : ℚ} (h : DecDen q) : DecDen (-q) := by
  obtain ⟨k, hk⟩ := h
  exact ⟨k, by simpa using hk⟩

theorem decDen_mul {a b : ℚ} (ha : DecDen a) (hb : DecDen b) : DecDen (a * b) := by
  obtain ⟨k1, hk1⟩ := ha
  obtain ⟨k2, hk2⟩ := hb
  refine ⟨k1 + k2, ?_⟩
  calc (a * b).den ∣ a.den * b.den := Rat.mul_den_dvd a b
    _ ∣ 10 ^ k1 * 10 ^ k2 := mul_dvd_mul hk1 hk2
    _ = 10 ^ (k1 + k2) := (pow_add 10 k1 k2).symm

theorem decimal_value (i f L : Nat) :
    (i : ℚ) + (f : ℚ) / (10 ^ L : ℚ) = ((i * 10 ^ L + f : ℕ) : ℚ) / (10 ^ L : ℚ) := by
  have h10 : ((10 : ℚ) ^ L) ≠ 0 := by positivity
  field_simp

theorem parseUnsigned_decDen {l : List Char} {q : ℚ}
    (h : parseUnsigned l = some q) : DecDen q := by
  unfold parseUnsigned at h
  split at h
  · cases hp : parseNatDigits (l.takeWhile (fun c => c != '.')) with
    | none => rw [hp] at h; exact Option.noConfusion h
    | some n =>
      rw [hp] at h
      obtain rfl : (n : ℚ) = q := by injection h
      exact decDen_natCast n
  · rename_i fp heq
    split at h
    · split at h
      · exact Option.noConfusion h
      · rename_i ids fds hids hfds hne
        obtain rfl : (digitsVal ids : ℚ) + (digitsVal fds : ℚ) / (10 ^ fp.length : ℚ) = q := by
          injection h
        rw [decimal_value]
        exact decDen_div_pow _ _
    · exact Option.noConfusion h

theorem parseNum_decDen {s : String} {q : ℚ} (h : parseNum s = some q) :
    DecDen q := by
  unfold parseNum at h
  split at h
  · cases hp : parseUnsigned _ with
    | none =>
      rename_i rest heq
      rw [hp] at h
      exact Option.noConfusion h
    | some v =>
      rename_i rest heq
      rw [hp] at h
      obtain rfl : -v = q := by injection h
      exact decDen_neg (parseUnsigned_decDen hp)
  · exact parseUnsigned_decDen h

theorem mapM_chars_ne_dot {l : List Char} {ds : List Nat}
    (h : l.mapM charToDigit = some ds) : ∀ c ∈ l, ((c != '.') = true) ∧ c ≠ '-' := by
  intro c hc
  obtain ⟨d, hd⟩ := mapM_some_forall h c hc
  exact ⟨charToDigit_ne_dot hd, charToDigit_ne_dash hd⟩

theorem parseUnsigned_printQnn {q : ℚ} (h0 : 0 ≤ q) (hD : DecDen q) :
    parseUnsigned (printQnn q) = some q := by
  obtain ⟨k, hfind, hdvd⟩ := printQnn_find hD
  have hden0 : q.den ≠ 0 := q.den_nz
  set m := q.num.toNat * (10 ^ k / q.den) with hm
  have hmden : m * q.den = q.num.toNat * 10 ^ k := by
    rw [hm, Nat.mul_assoc, Nat.div_mul_cancel hdvd]
  have hnumq : ((q.num.toNat : ℕ) : ℚ) = (q.num : ℚ) := by
    have := Int.toNat_of_nonneg (Rat.num_nonneg.mpr h0)
    exact_mod_cast this
  have hq10 : ((m : ℕ) : ℚ) = q * 10 ^ k := by
    have hcast : ((m : ℕ) : ℚ) * ((q.den : ℕ) : ℚ)
        = ((q.num.toNat : ℕ) : ℚ) * ((10 ^ k : ℕ) : ℚ) := by
      exact_mod_cast congrArg (fun x : ℕ => (x : ℚ)) hmden
    have hdenQ : ((q.den : ℕ) : ℚ) ≠ 0 := Nat.cast_ne_zero.mpr hden0
    have hqq : (q.num : ℚ) = q * ((q.den : ℕ) : ℚ) := by
      exact (div_eq_iff hdenQ).mp (Rat.num_div_den q)
    rw [hnumq, hqq] at hcast
    have h1 : ((m : ℕ) : ℚ) * ((q.den : ℕ) : ℚ)
        = q * ((10 ^ k : ℕ) : ℚ) * ((q.den : ℕ) : ℚ) := by
      rw [hcast]; ring
    have := mul_right_cancel₀ hdenQ h1
    rw [this]
    push_cast
    ring
  by_cases hk0 : k = 0
  · subst hk0
    have hden1 : q.den = 1 := Nat.dvd_one.mp (by simpa using hdvd)
    have hprint : printQnn q = natToChars m ++ ['.', '0'] := by
      unfold printQnn
      rw [hfind]
      rfl
    obtain ⟨ds, hmap, hval, hne⟩ := natToChars_parse m
    have hprops := mapM_chars_ne_dot hmap
    have hsplit := takeWhile_append_stop (p := fun c => c != '.') (natToChars m) '.' ['0']
      (fun x hx => (hprops x hx).1) (by decide)
    rw [hprint]
    unfold parseUnsigned
    rw [hsplit.2]
    dsimp only
    rw [hsplit.1, hmap]
    have hfp : (['0'] : List Char).mapM charToDigit = some [0] := by rfl
    rw [hfp]
    dsimp only
    rw [if_neg (by simp [List.isEmpty_iff, hne])]
    have hq : (digitsVal ds : ℚ) + (digitsVal [0] : ℚ) / (10 ^ ([('0' : Char)].length) : ℚ) = q := by
      have hz : digitsVal [0] = 0 := by rfl
      rw [hval, hz]
      have : ((m : ℕ) : ℚ) = q := by
        rw [hq10]; simp
      simpa using this
    rw [hq]
  · have hprint : printQnn q = natToChars (m / 10 ^ k) ++ '.' :: padChars k (m % 10 ^ k) := by
      unfold printQnn
      rw [hfind]
      simp [hk0]
    have hmodlt : m % 10 ^ k < 10 ^ k := Nat.mod_lt _ (Nat.pos_pow_of_pos k (by omega))
    obtain ⟨ds1, hmap1, hval1, hne1⟩ := natToChars_parse (m / 10 ^ k)
    obtain ⟨ds2, hmap2, hval2, hlen2, hclen2⟩ := padChars_parse k (m % 10 ^ k) hmodlt
    have hprops := mapM_chars_ne_dot hmap1
    have hsplit := takeWhile_append_stop (p := fun c => c != '.')
      (natToChars (m / 10 ^ k)) '.' (padChars k (m % 10 ^ k))
      (fun x hx => (hprops x hx).1) (by decide)
    rw [hprint]
    unfold parseUnsigned
    rw [hsplit.2]
    dsimp only
    rw [hsplit.1, hmap1, hmap2]
    dsimp only
    rw [if_neg (by simp [List.isEmpty_iff, hne1])]
    have h10 : ((10 : ℚ) ^ k) ≠ 0 := by positivity
    have hq : (digitsVal ds1 : ℚ)
        + (digitsVal ds2 : ℚ) / (10 ^ (padChars k (m % 10 ^ k)).length : ℚ) = q := by
      rw [hval1, hval2, hclen2, decimal_value]
      have hmm : m / 10 ^ k * 10 ^ k + m % 10 ^ k = m := by
        rw [Nat.mul_comm]
        exact Nat.div_add_mod m (10 ^ k)
      rw [hmm, hq10]
      field_simp
    rw [hq]

theorem printQnn_shape {q : ℚ} (hD : DecDen q) :
    ∃ c rest, printQnn q = c :: rest ∧ c ≠ '-' := by
  obtain ⟨k, hfind, hdvd⟩ := printQnn_find hD
  by_cases hk0 : k = 0
  · subst hk0
    have hprint : printQnn q
        = natToChars (q.num.toNat * (10 ^ 0 / q.den)) ++ ['.', '0'] := by
      unfold printQnn; rw [hfind]; rfl
    obtain ⟨ds, hmap, hval, hne⟩ := natToChars_parse (q.num.toNat * (10 ^ 0 / q.den))
    cases hnc : natToChars (q.num.toNat * (10 ^ 0 / q.den)) with
    | nil => exact absurd hnc hne
    | cons c rest =>
      refine ⟨c, rest ++ ['.', '0'], ?_, ?_⟩
      · rw [hprint, hnc]; rfl
      · exact (mapM_chars_ne_dot hmap c (hnc ▸ List.mem_cons_self c rest)).2
  · have hprint : printQnn q
        = natToChars (q.num.toNat * (10 ^ k / q.den) / 10 ^ k)
          ++ '.' :: padChars k (q.num.toNat * (10 ^ k / q.den) % 10 ^ k) := by
      unfold printQnn
      rw [hfind]
      dsimp only
      rw [if_neg hk0]
    obtain ⟨ds, hmap, hval, hne⟩ :=
      natToChars_parse (q.num.toNat * (10 ^ k / q.den) / 10 ^ k)
    cases hnc : natToChars (q.num.toNat * (10 ^ k / q.den) / 10 ^ k) with
    | nil => exact absurd hnc hne
    | cons c rest =>
      refine ⟨c, rest ++ '.' :: padChars k (q.num.toNat * (10 ^ k / q.den) % 10 ^ k),
        ?_, ?_⟩
      · rw [hprint, hnc]; rfl
      · exact (mapM_chars_ne_dot hmap c (hnc ▸ List.mem_cons_self c rest)).2

theorem parseNum_dash (l : List Char) :
    parseNum ⟨'-' :: l⟩ = (parseUnsigned l).map (fun x => -x) := rfl

theorem parseNum_cons_ne_dash {c : Char} (l : List Char) (h : c ≠ '-') :
    parseNum ⟨c :: l⟩ = parseUnsigned (c :: l) := by
  unfold parseNum
  split
  · rename_i rest heq
    rw [show (⟨c :: l⟩ : String).data = c :: l from rfl] at heq
    injection heq with h1 h2
    exact absurd h1 h
  · rfl

theorem parseNum_printQ {q : ℚ} (hD : DecDen q) : parseNum (printQ q) = some q := by
  by_cases hneg : q < 0
  · have h1 : printQ q = ⟨'-' :: printQnn (-q)⟩ := by rw [printQ, if_pos hneg]
    rw [h1, parseNum_dash]
    rw [parseUnsigned_printQnn (neg_nonneg.mpr (le_of_lt hneg)) (decDen_neg hD)]
    simp
  · have h1 : printQ q = ⟨printQnn q⟩ := by rw [printQ, if_neg hneg]
    obtain ⟨c, rest, hshape, hcne⟩ := printQnn_shape hD
    rw [h1, hshape, parseNum_cons_ne_dash rest hcne, ← hshape]
    exact parseUnsigned_printQnn (le_of_not_lt hneg) hD

/-! ### Dates -/

/-- The dates `parseDate` can produce. -/
def ValidDate (d : Date) : Prop :=
  1 ≤ d.month ∧ d.month ≤ 12 ∧ 1 ≤ d.day ∧ d.day ≤ 31 ∧ d.year < 10000

theorem parseDate_valid {s : String} {d : Date} (h : parseDate s = some d) :
    ValidDate d := by
  unfold parseDate at h
  split at h
  · split at h
    · rename_i a b c dd e f g hh ha hb hc hd he hf hg hhh
      dsimp only at h
      split at h
      · rename_i hcond
        obtain rfl : (⟨((a * 10 + b) * 10 + c) * 10 + dd, e * 10 + f, g * 10 + hh⟩
            : Date) = d := by injection h
        have hA := charToDigit_lt ha
        have hB := charToDigit_lt hb
        have hC := charToDigit_lt hc
        have hD := charToDigit_lt hd
        refine ⟨?_, ?_, ?_, ?_, ?_⟩ <;> (dsimp only; omega)
      · exact Option.noConfusion h
    · exact Option.noConfusion h
  · exact Option.noConfusion h

theorem parseDate_printDate {d : Date} (h : ValidDate d) :
    parseDate (printDate d) = some d := by
  obtain ⟨h1, h2, h3, h4, h5⟩ := h
  cases d with
  | mk y mo da =>
    simp only at h1 h2 h3 h4 h5
    have hdata : (printDate ⟨y, mo, da⟩).data =
        [Nat.digitChar (y / 10 ^ 3), Nat.digitChar (y % 10 ^ 3 / 10 ^ 2),
         Nat.digitChar (y % 10 ^ 3 % 10 ^ 2 / 10 ^ 1),
         Nat.digitChar (y % 10 ^ 3 % 10 ^ 2 % 10 ^ 1 / 10 ^ 0), '-',
         Nat.digitChar (mo / 10 ^ 1), Nat.digitChar (mo % 10 ^ 1 / 10 ^ 0), '-',
         Nat.digitChar (da / 10 ^ 1), Nat.digitChar (da % 10 ^ 1 / 10 ^ 0)] := by
      show padChars 4 y ++ '-' :: (padChars 2 mo ++ '-' :: padChars 2 da) = _
      simp [padChars]
    unfold parseDate
    have e1 : charToDigit (Nat.digitChar (y / 10 ^ 3)) = some (y / 10 ^ 3) :=
      charToDigit_digitChar (by omega)
    have e2 : charToDigit (Nat.digitChar (y % 10 ^ 3 / 10 ^ 2))
        = some (y % 10 ^ 3 / 10 ^ 2) := charToDigit_digitChar (by omega)
    have e3 : charToDigit (Nat.digitChar (y % 10 ^ 3 % 10 ^ 2 / 10 ^ 1))
        = some (y % 10 ^ 3 % 10 ^ 2 / 10 ^ 1) := charToDigit_digitChar (by omega)
    have e4 : charToDigit (Nat.digitChar (y % 10 ^ 3 % 10 ^ 2 % 10 ^ 1 / 10 ^ 0))
        = some (y % 10 ^ 3 % 10 ^ 2 % 10 ^ 1 / 10 ^ 0) := charToDigit_digitChar (by omega)
    have e5 : charToDigit (Nat.digitChar (mo / 10 ^ 1)) = some (mo / 10 ^ 1) :=
      charToDigit_digitChar (by omega)
    have e6 : charToDigit (Nat.digitChar (mo % 10 ^ 1 / 10 ^ 0))
        = some (mo % 10 ^ 1 / 10 ^ 0) := charToDigit_digitChar (by omega)
    have e7 : charToDigit (Nat.digitChar (da / 10 ^ 1)) = some (da / 10 ^ 1) :=
      charToDigit_digitChar (by omega)
    have e8 : charToDigit (Nat.digitChar (da % 10 ^ 1 / 10 ^ 0))
        = some (da % 10 ^ 1 / 10 ^ 0) := charToDigit_digitChar (by omega)
    have hy : ((y / 10 ^ 3 * 10 + y % 10 ^ 3 / 10 ^ 2) * 10
        + y % 10 ^ 3 % 10 ^ 2 / 10 ^ 1) * 10
        + y % 10 ^ 3 % 10 ^ 2 % 10 ^ 1 / 10 ^ 0 = y := by omega
    have hmo : mo / 10 ^ 1 * 10 + mo % 10 ^ 1 / 10 ^ 0 = mo := by omega
    have hda : da / 10 ^ 1 * 10 + da % 10 ^ 1 / 10 ^ 0 = da := by omega
    rw [hdata]
    split
    · rename_i y1 y2 y3 y4 m1 m2 d1 d2 heq
      simp only [List.cons.injEq, and_true, true_and] at heq
      obtain ⟨hq1, hq2, hq3, hq4, hq5, hq6, hq7, hq8⟩ := heq
      subst hq1; subst hq2; subst hq3; subst hq4
      subst hq5; subst hq6; subst hq7; subst hq8
      rw [e1, e2, e3, e4, e5, e6, e7, e8]
      split
      · rename_i a b c dd e f g hh ha hb hc hd he hf hg hhh
        injection ha with ha; injection hb with hb; injection hc with hc
        injection hd with hd; injection he with he; injection hf with hf
        injection hg with hg; injection hhh with hhh
        subst ha; subst hb; subst hc; subst hd
        subst he; subst hf; subst hg; subst hhh
        dsimp only
        rw [if_pos (show (1 ≤ mo / 10 ^ 1 * 10 + mo % 10 ^ 1 / 10 ^ 0
            ∧ mo / 10 ^ 1 * 10 + mo % 10 ^ 1 / 10 ^ 0 ≤ 12
            ∧ 1 ≤ da / 10 ^ 1 * 10 + da % 10 ^ 1 / 10 ^ 0
            ∧ da / 10 ^ 1 * 10 + da % 10 ^ 1 / 10 ^ 0 ≤ 31)
          from ⟨by omega, by omega, by omega, by omega⟩)]
        rw [hy, hmo, hda]
      · rename_i hne
        exact (hne _ _ _ _ _ _ _ _ rfl rfl rfl rfl rfl rfl rfl rfl).elim
    · rename_i hne
      exact (hne _ _ _ _ _ _ _ _ rfl).elim

/-! ### The null standardizer on cells -/

theorem stdCell_none : stdCell none = none := rfl

theorem stdCell_sentinel {s : String} (h : s ∈ nullSentinels) :
    stdCell (some s) = none := by
  simp [stdCell, h]

theorem stdCell_not_sentinel {s : String} (h : s ∉ nullSentinels) :
    stdCell (some s) = some s := by
  simp [stdCell, h]

theorem stdCell_eq_none_iff (c : RawCell) :
    stdCell c = none ↔ c = none ∨ ∃ s, c = some s ∧ s ∈ nullSentinels := by
  cases c with
  | none => simp [stdCell]
  | some s =>
    by_cases h : s ∈ nullSentinels
    · simp [stdCell_sentinel h, h]
    · simp [stdCell_not_sentinel h, h]

theorem stdCell_some {c : RawCell} {s : String} (h : stdCell c = some s) :
    c = some s ∧ s ∉ nullSentinels := by
  cases c with
  | none => exact Option.noConfusion h
  | some v =>
    by_cases hv : v ∈ nullSentinels
    · rw [stdCell_sentinel hv] at h
      exact Option.noConfusion h
    · rw [stdCell_not_sentinel hv] at h
      obtain rfl : v = s := by injection h
      exact ⟨rfl, hv⟩

theorem stdCell_idem (c : RawCell) : stdCell (stdCell c) = stdCell c := by
  cases hc : stdCell c with
  | none => rfl
  | some s => exact stdCell_not_sentinel (stdCell_some hc).2

/-! ### Minimum and mode -/

theorem minString_none_iff : ∀ l : List String, minString l = none ↔ l = [] := by
  intro l
  cases l with
  | nil => simp [minString]
  | cons s rest =>
    simp only [minString]
    cases minString rest with
    | none => simp
    | some m' =>
      by_cases hlt : s < m' <;> simp [hlt]

theorem minString_mem : ∀ {l : List String} {m : String},
    minString l = some m → m ∈ l := by
  intro l
  induction l with
  | nil => intro m h; exact Option.noConfusion h
  | cons s rest ih =>
    intro m h
    unfold minString at h
    cases hr : minString rest with
    | none =>
      rw [hr] at h
      dsimp only at h
      obtain rfl : s = m := by injection h
      exact List.mem_cons_self _ _
    | some m' =>
      rw [hr] at h
      dsimp only at h
      by_cases hlt : s < m'
      · rw [if_pos hlt] at h
        obtain rfl : s = m := by injection h
        exact List.mem_cons_self _ _
      · rw [if_neg hlt] at h
        obtain rfl : m' = m := by injection h
        exact List.mem_cons_of_mem _ (ih hr)

theorem minString_min : ∀ {l : List String} {m : String},
    minString l = some m → ∀ v ∈ l, ¬ v < m := by
  intro l
  induction l with
  | nil => intro m h; exact Option.noConfusion h
  | cons s rest ih =>
    intro m h v hv
    unfold minString at h
    cases hr : minString rest with
    | none =>
      rw [hr] at h
      dsimp only at h
      obtain rfl : s = m := by injection h
      rcases List.mem_cons.mp hv with rfl | hv'
      · exact lt_irrefl v
      · rw [(minString_none_iff rest).mp hr] at hv'
        cases hv'
    | some m' =>
      rw [hr] at h
      dsimp only at h
      by_cases hlt : s < m'
      · rw [if_pos hlt] at h
        obtain rfl : s = m := by injection h
        rcases List.mem_cons.mp hv with rfl | hv'
        · exact lt_irrefl v
        · intro hvs
          exact ih hr v hv' (lt_trans hvs hlt)
      · rw [if_neg hlt] at h
        obtain rfl : m' = m := by injection h
        rcases List.mem_cons.mp hv with rfl | hv'
        · exact hlt
        · exact ih hr v hv'

theorem minString_isSome : ∀ {l : List String}, l ≠ [] → ∃ m, minString l = some m := by
  intro l
  induction l with
  | nil => intro h; exact absurd rfl h
  | cons s rest ih =>
    intro _
    unfold minString
    cases hr : minString rest with
    | none => exact ⟨s, rfl⟩
    | some m' =>
      by_cases hlt : s < m'
      · exact ⟨s, by dsimp only; rw [if_pos hlt]⟩
      · exact ⟨m', by dsimp only; rw [if_neg hlt]⟩

theorem foldr_max_le (L : List Nat) : ∀ y ∈ L, y ≤ L.foldr max 0 := by
  induction L with
  | nil => intro y hy; cases hy
  | cons a as ih =>
    intro y hy
    rcases List.mem_cons.mp hy with rfl | hy'
    · exact le_max_left _ _
    · exact le_trans (ih y hy') (le_max_right _ _)

theorem foldr_max_mem (L : List Nat) (h : L ≠ []) :
    L.foldr max 0 ∈ L ∨ L.foldr max 0 = 0 := by
  induction L with
  | nil => exact absurd rfl h
  | cons a as ih =>
    cases as with
    | nil => simp
    | cons b bs =>
      rcases ih (by simp) with hmem | hzero
      · rcases le_total a ((b :: bs).foldr max 0) with hle | hle
        · left
          rw [List.foldr_cons, max_eq_right hle]
          exact List.mem_cons_of_mem _ hmem
        · left
          rw [List.foldr_cons, max_eq_left hle]
          exact List.mem_cons_self _ _
      · rcases Nat.le_total a ((b :: bs).foldr max 0) with hle | hle
        · rw [List.foldr_cons, max_eq_right hle]
          right; exact hzero
        · rw [List.foldr_cons, max_eq_left hle]
          left; exact List.mem_cons_self _ _

theorem modeOf_spec {l : List String} {m : String} (h : modeOf l = some m) :
    m ∈ l ∧ (∀ v ∈ l, l.count v ≤ l.count m)
      ∧ (∀ v ∈ l, l.count v = l.count m → ¬ v < m) := by
  unfold modeOf at h
  have hmem := minString_mem h
  rw [List.mem_filter] at hmem
  obtain ⟨hml, hmc⟩ := hmem
  have hcnt : l.count m = (l.map (fun v => l.count v)).foldr max 0 := by
    simpa using hmc
  refine ⟨hml, ?_, ?_⟩
  · intro v hv
    rw [hcnt]
    exact foldr_max_le _ _ (List.mem_map_of_mem _ hv)
  · intro v hv hvc
    refine minString_min h v ?_
    rw [List.mem_filter]
    exact ⟨hv, by simp [hvc, hcnt]⟩

theorem modeOf_isSome {l : List String} (h : l ≠ []) :
    ∃ m, modeOf l = some m := by
  unfold modeOf
  cases l with
  | nil => exact absurd rfl h
  | cons x xs =>
    have hx : (x :: xs).count x ≠ 0 := by
      simp [List.count_cons]
    have hle := foldr_max_le ((x :: xs).map (fun v => (x :: xs).count v))
      ((x :: xs).count x) (List.mem_map_of_mem _ (List.mem_cons_self x xs))
    rcases foldr_max_mem ((x :: xs).map (fun v => (x :: xs).count v)) (by simp) with
      hmem | hzero
    · rw [List.mem_map] at hmem
      obtain ⟨v, hvl, hvc⟩ := hmem
      have : v ∈ (x :: xs).filter
          (fun v => (x :: xs).count v == ((x :: xs).map (fun v => (x :: xs).count v)).foldr max 0) := by
        rw [List.mem_filter]
        exact ⟨hvl, by simp [hvc]⟩
      apply minString_isSome
      intro hnil
      rw [hnil] at this
      cases this
    · omega

/-! ### Deduplication -/

theorem dedupSeen_nil (seen : List Row) : dedupSeen seen [] = [] := rfl

theorem dedupSeen_cons_mem {seen : List Row} {r : Row} (h : r ∈ seen)
    (rs : List Row) : dedupSeen seen (r :: rs) = dedupSeen (r :: seen) rs := by
  show (if r ∈ seen then dedupSeen (r :: seen) rs
    else r :: dedupSeen (r :: seen) rs) = _
  rw [if_pos h]

theorem dedupSeen_cons_not_mem {seen : List Row} {r : Row} (h : r ∉ seen)
    (rs : List Row) : dedupSeen seen (r :: rs) = r :: dedupSeen (r :: seen) rs := by
  show (if r ∈ seen then dedupSeen (r :: seen) rs
    else r :: dedupSeen (r :: seen) rs) = _
  rw [if_neg h]

theorem dupCountSeen_cons (seen : List Row) (r : Row) (rs : List Row) :
    dupCountSeen seen (r :: rs)
      = (if r ∈ seen then 1 else 0) + dupCountSeen (r :: seen) rs := rfl

theorem dedupSeen_congr : ∀ (l seen1 seen2 : List Row),
    (∀ x, x ∈ seen1 ↔ x ∈ seen2) → dedupSeen seen1 l = dedupSeen seen2 l := by
  intro l
  induction l with
  | nil => intro seen1 seen2 _; rfl
  | cons r rs ih =>
    intro seen1 seen2 hiff
    have hnext : ∀ x, x ∈ r :: seen1 ↔ x ∈ r :: seen2 := by
      intro x
      simp only [List.mem_cons]
      rw [hiff x]
    by_cases hr : r ∈ seen1
    · rw [dedupSeen_cons_mem hr, dedupSeen_cons_mem ((hiff r).mp hr)]
      exact ih _ _ hnext
    · rw [dedupSeen_cons_not_mem hr,
        dedupSeen_cons_not_mem (fun hc => hr ((hiff r).mpr hc))]
      rw [ih _ _ hnext]

theorem mem_dedupSeen : ∀ (l seen : List Row) (r : Row),
    r ∈ dedupSeen seen l ↔ r ∈ l ∧ r ∉ seen := by
  intro l
  induction l with
  | nil => intro seen r; simp [dedupSeen_nil]
  | cons a rs ih =>
    intro seen r
    by_cases ha : a ∈ seen
    · rw [dedupSeen_cons_mem ha, ih]
      simp only [List.mem_cons]
      constructor
      · rintro ⟨hrs, hns⟩
        push_neg at hns
        exact ⟨Or.inr hrs, hns.2⟩
      · rintro ⟨hor, hns⟩
        rcases hor with rfl | hrs
        · exact absurd ha hns
        · refine ⟨hrs, ?_⟩
          push_neg
          exact ⟨fun hc => hns (hc ▸ ha), hns⟩
    · rw [dedupSeen_cons_not_mem ha]
      simp only [List.mem_cons, ih]
      constructor
      · rintro (rfl | ⟨hrs, hns⟩)
        · exact ⟨Or.inl rfl, ha⟩
        · push_neg at hns
          exact ⟨Or.inr hrs, hns.2⟩
      · rintro ⟨hor, hns⟩
        rcases hor with rfl | hrs
        · exact Or.inl rfl
        · by_cases hra : r = a
          · exact Or.inl hra
          · refine Or.inr ⟨hrs, ?_⟩
            push_neg
            exact ⟨hra, hns⟩

theorem dedupSeen_sublist : ∀ (l seen : List Row), (dedupSeen seen l).Sublist l := by
  intro l
  induction l with
  | nil => intro seen; exact List.Sublist.refl []
  | cons a rs ih =>
    intro seen
    by_cases ha : a ∈ seen
    · rw [dedupSeen_cons_mem ha]
      exact (ih (a :: seen)).cons a
    · rw [dedupSeen_cons_not_mem ha]
      exact (ih (a :: seen)).cons₂ a

theorem dedupSeen_nodup : ∀ (l seen : List Row), (dedupSeen seen l).Nodup := by
  intro l
  induction l with
  | nil => intro seen; exact List.nodup_nil
  | cons a rs ih =>
    intro seen
    by_cases ha : a ∈ seen
    · rw [dedupSeen_cons_mem ha]; exact ih _
    · rw [dedupSeen_cons_not_mem ha]
      refine List.nodup_cons.mpr ⟨?_, ih _⟩
      intro hc
      exact ((mem_dedupSeen rs (a :: seen) a).mp hc).2 (List.mem_cons_self _ _)

theorem dedupSeen_eq_self : ∀ (l seen : List Row), l.Nodup →
    (∀ r ∈ l, r ∉ seen) → dedupSeen seen l = l := by
  intro l
  induction l with
  | nil => intro seen _ _; rfl
  | cons a rs ih =>
    intro seen hnd hns
    rw [dedupSeen_cons_not_mem (hns a (List.mem_cons_self _ _))]
    congr 1
    refine ih _ (List.nodup_cons.mp hnd).2 ?_
    intro r hr
    simp only [List.mem_cons]
    rintro (rfl | hc)
    · exact (List.nodup_cons.mp hnd).1 hr
    · exact hns r (List.mem_cons_of_mem _ hr) hc

theorem dedupSeen_length : ∀ (l seen : List Row),
    (dedupSeen seen l).length + dupCountSeen seen l = l.length := by
  intro l
  induction l with
  | nil => intro seen; rfl
  | cons a rs ih =>
    intro seen
    rw [dupCountSeen_cons]
    by_cases ha : a ∈ seen
    · rw [dedupSeen_cons_mem ha, if_pos ha]
      have := ih (a :: seen)
      simp only [List.length_cons]
      omega
    · rw [dedupSeen_cons_not_mem ha, if_neg ha]
      have := ih (a :: seen)
      simp only [List.length_cons]
      omega

theorem dedupSeen_shift : ∀ (l seen : List Row) (a : Row),
    dedupSeen (a :: seen) l = dedupSeen seen (l.filter (fun x => !(x == a))) := by
  intro l
  induction l with
  | nil => intro seen a; rfl
  | cons r rs ih =>
    intro seen a
    by_cases hra : r = a
    · subst hra
      have hfil : (r :: rs).filter (fun x => !(x == r))
          = rs.filter (fun x => !(x == r)) := by
        simp [List.filter_cons]
      rw [hfil, dedupSeen_cons_mem (List.mem_cons_self r seen)]
      rw [dedupSeen_congr rs (r :: r :: seen) (r :: seen)
        (by intro x; simp only [List.mem_cons]; tauto)]
      exact ih seen r
    · have hfil : (r :: rs).filter (fun x => !(x == a))
          = r :: rs.filter (fun x => !(x == a)) := by
        simp [List.filter_cons, hra]
      rw [hfil]
      by_cases hrs : r ∈ seen
      · rw [dedupSeen_cons_mem (List.mem_cons_of_mem a hrs), dedupSeen_cons_mem hrs]
        rw [dedupSeen_congr rs (r :: a :: seen) (a :: r :: seen)
          (by intro x; simp only [List.mem_cons]; tauto)]
        exact ih (r :: seen) a
      · have h1 : r ∉ a :: seen := by
          simp only [List.mem_cons]
          push_neg
          exact ⟨hra, hrs⟩
        rw [dedupSeen_cons_not_mem h1, dedupSeen_cons_not_mem hrs]
        congr 1
        rw [dedupSeen_congr rs (r :: a :: seen) (a :: r :: seen)
          (by intro x; simp only [List.mem_cons]; tauto)]
        exact ih (r :: seen) a

theorem dedupSeen_keepFirst (a : Row) (rs : List Row) :
    dedupSeen [] (a :: rs) = a :: dedupSeen [] (rs.filter (fun x => !(x == a))) := by
  rw [dedupSeen_cons_not_mem (List.not_mem_nil a)]
  rw [dedupSeen_shift rs [] a]

/-! ### Field equations for the row transforms -/

@[simp] theorem coerceRow_transactionDate (r : RawRow) :
    (coerceRow r).transactionDate = r.transactionDate.bind parseDate := rfl
@[simp] theorem coerceRow_pricePerUnit (r : RawRow) :
    (coerceRow r).pricePerUnit = r.pricePerUnit.bind parseNum := rfl
@[simp] theorem coerceRow_quantity (r : RawRow) :
    (coerceRow r).quantity = r.quantity.bind parseNum := rfl
@[simp] theorem coerceRow_item (r : RawRow) : (coerceRow r).item = r.item := rfl
@[simp] theorem coerceRow_totalSpent (r : RawRow) :
    (coerceRow r).totalSpent = r.totalSpent.bind parseNum := rfl
@[simp] theorem coerceRow_location (r : RawRow) :
    (coerceRow r).location = r.location := rfl
@[simp] theorem coerceRow_paymentMethod (r : RawRow) :
    (coerceRow r).paymentMethod = r.paymentMethod := rfl
@[simp] theorem coerceRow_extra (r : RawRow) : (coerceRow r).extra = r.extra := rfl

@[simp] theorem stdRow_transactionDate (r : Row) :
    (stdRow r).transactionDate = r.transactionDate := rfl
@[simp] theorem stdRow_pricePerUnit (r : Row) :
    (stdRow r).pricePerUnit = r.pricePerUnit := rfl
@[simp] theorem stdRow_quantity (r : Row) : (stdRow r).quantity = r.quantity := rfl
@[simp] theorem stdRow_item (r : Row) : (stdRow r).item = stdCell r.item := rfl
@[simp] theorem stdRow_totalSpent (r : Row) :
    (stdRow r).totalSpent = r.totalSpent := rfl
@[simp] theorem stdRow_location (r : Row) :
    (stdRow r).location = stdCell r.location := rfl
@[simp] theorem stdRow_paymentMethod (r : Row) :
    (stdRow r).paymentMethod = stdCell r.paymentMethod := rfl
@[simp] theorem stdRow_extra (r : Row) :
    (stdRow r).extra = r.extra.map stdCell := rfl

@[simp] theorem fillLocation_transactionDate (m : String) (r : Row) :
    (fillLocation m r).transactionDate = r.transactionDate := rfl
@[simp] theorem fillLocation_pricePerUnit (m : String) (r : Row) :
    (fillLocation m r).pricePerUnit = r.pricePerUnit := rfl
@[simp] theorem fillLocation_quantity (m : String) (r : Row) :
    (fillLocation m r).quantity = r.quantity := rfl
@[simp] theorem fillLocation_item (m : String) (r : Row) :
    (fillLocation m r).item = r.item := rfl
@[simp] theorem fillLocation_totalSpent (m : String) (r : Row) :
    (fillLocation m r).totalSpent = r.totalSpent := rfl
@[simp] theorem fillLocation_location (m : String) (r : Row) :
    (fillLocation m r).location = some (r.location.getD m) := rfl
@[simp] theorem fillLocation_paymentMethod (m : String) (r : Row) :
    (fillLocation m r).paymentMethod = r.paymentMethod := rfl
@[simp] theorem fillLocation_extra (m : String) (r : Row) :
    (fillLocation m r).extra = r.extra := rfl

@[simp] theorem fillPayment_transactionDate (m : String) (r : Row) :
    (fillPayment m r).transactionDate = r.transactionDate := rfl
@[simp] theorem fillPayment_pricePerUnit (m : String) (r : Row) :
    (fillPayment m r).pricePerUnit = r.pricePerUnit := rfl
@[simp] theorem fillPayment_quantity (m : String) (r : Row) :
    (fillPayment m r).quantity = r.quantity := rfl
@[simp] theorem fillPayment_item (m : String) (r : Row) :
    (fillPayment m r).item = r.item := rfl
@[simp] theorem fillPayment_totalSpent (m : String) (r : Row) :
    (fillPayment m r).totalSpent = r.totalSpent := rfl
@[simp] theorem fillPayment_location (m : String) (r : Row) :
    (fillPayment m r).location = r.location := rfl
@[simp] theorem fillPayment_paymentMethod (m : String) (r : Row) :
    (fillPayment m r).paymentMethod = some (r.paymentMethod.getD m) := rfl
@[simp] theorem fillPayment_extra (m : String) (r : Row) :
    (fillPayment m r).extra = r.extra := rfl

@[simp] theorem recalcRow_transactionDate (r : Row) :
    (recalcRow r).transactionDate = r.transactionDate := rfl
@[simp] theorem recalcRow_pricePerUnit (r : Row) :
    (recalcRow r).pricePerUnit = r.pricePerUnit := rfl
@[simp] theorem recalcRow_quantity (r : Row) :
    (recalcRow r).quantity = r.quantity := rfl
@[simp] theorem recalcRow_item (r : Row) : (recalcRow r).item = r.item := rfl
@[simp] theorem recalcRow_location (r : Row) :
    (recalcRow r).location = r.location := rfl
@[simp] theorem recalcRow_paymentMethod (r : Row) :
    (recalcRow r).paymentMethod = r.paymentMethod := rfl
@[simp] theorem recalcRow_extra (r : Row) : (recalcRow r).extra = r.extra := rfl

theorem recalcRow_totalSpent_some {r : Row} {q p : ℚ} (hq : r.quantity = some q)
    (hp : r.pricePerUnit = some p) : (recalcRow r).totalSpent = some (q * p) := by
  unfold recalcRow
  rw [hq, hp]

theorem recalcRow_totalSpent_irrelevant (r : Row) (v : Option ℚ) :
    (recalcRow { r with totalSpent := v }).totalSpent = (recalcRow r).totalSpent := rfl

@[simp] theorem printRow_transactionDate (r : Row) :
    (printRow r).transactionDate = r.transactionDate.map printDate := rfl
@[simp] theorem printRow_pricePerUnit (r : Row) :
    (printRow r).pricePerUnit = r.pricePerUnit.map printQ := rfl
@[simp] theorem printRow_quantity (r : Row) :
    (printRow r).quantity = r.quantity.map printQ := rfl
@[simp] theorem printRow_item (r : Row) : (printRow r).item = r.item := rfl
@[simp] theorem printRow_totalSpent (r : Row) :
    (printRow r).totalSpent = r.totalSpent.map printQ := rfl
@[simp] theorem printRow_location (r : Row) : (printRow r).location = r.location := rfl
@[simp] theorem printRow_paymentMethod (r : Row) :
    (printRow r).paymentMethod = r.paymentMethod := rfl
@[simp] theorem printRow_extra (r : Row) : (printRow r).extra = r.extra := rfl

/-! ### Dissecting the pipeline -/

theorem modeOf_nil : modeOf ([] : List String) = none := rfl

theorem preDedup_mk {t : List RawRow} {ml mp : String}
    (hml : modeOf (nonMissing ((dropStage (prepRows t)).map Row.location)) = some ml)
    (hmp : modeOf (nonMissing
      (((dropStage (prepRows t)).map (fillLocation ml)).map Row.paymentMethod))
        = some mp) :
    preDedup t = some ((((dropStage (prepRows t)).map (fillLocation ml)).map
      (fillPayment mp)).map recalcRow) := by
  unfold preDedup
  rw [hml]
  dsimp only
  rw [hmp]

theorem preDedup_cases {t : List RawRow} {pre : List Row}
    (h : preDedup t = some pre) :
    ∃ ml mp,
      modeOf (nonMissing ((dropStage (prepRows t)).map Row.location)) = some ml ∧
      modeOf (nonMissing
        (((dropStage (prepRows t)).map (fillLocation ml)).map Row.paymentMethod))
          = some mp ∧
      pre = (((dropStage (prepRows t)).map (fillLocation ml)).map
        (fillPayment mp)).map recalcRow := by
  unfold preDedup at h
  split at h
  · exact Option.noConfusion h
  · rename_i ml hml
    split at h
    · exact Option.noConfusion h
    · rename_i mp hmp
      refine ⟨ml, mp, hml, hmp, ?_⟩
      injection h with h
      exact h.symm

theorem cleanRows_eq {t : List RawRow} {out : List Row} :
    cleanRows t = some out ↔
      ∃ pre, preDedup t = some pre ∧ out = dedupSeen [] pre := by
  unfold cleanRows
  cases hp : preDedup t with
  | none => simp
  | some pre =>
    constructor
    · intro h
      injection h with h
      exact ⟨pre, rfl, h.symm⟩
    · rintro ⟨pre', hpre', rfl⟩
      injection hpre' with hpre'
      rw [hpre']
      rfl

/-! ### The invariant of the pipeline output -/

/-- Everything true of every row the pipeline writes out. -/
def OutRowInv (r : Row) : Prop :=
  (∃ dt, r.transactionDate = some dt ∧ ValidDate dt) ∧
  (∃ p, r.pricePerUnit = some p ∧ DecDen p) ∧
  (∃ q, r.quantity = some q ∧ DecDen q) ∧
  (∃ s, r.item = some s ∧ s ∉ nullSentinels) ∧
  (∃ q p, r.quantity = some q ∧ r.pricePerUnit = some p ∧
    r.totalSpent = some (q * p)) ∧
  (∃ s, r.location = some s ∧ s ∉ nullSentinels) ∧
  (∃ s, r.paymentMethod = some s ∧ s ∉ nullSentinels) ∧
  (∀ c ∈ r.extra, stdCell c = c)

theorem mem_prepRows {t : List RawRow} {ρ : Row} (h : ρ ∈ prepRows t) :
    ∃ x ∈ t, ρ = stdRow (coerceRow x) := by
  unfold prepRows at h
  rw [List.map_map] at h
  obtain ⟨x, hx, rfl⟩ := List.mem_map.mp h
  exact ⟨x, hx, rfl⟩

theorem essentialOk_fields {ρ : Row} (h : essentialOk ρ = true) :
    ρ.transactionDate.isSome = true ∧ ρ.pricePerUnit.isSome = true ∧
    ρ.quantity.isSome = true ∧ ρ.item.isSome = true := by
  unfold essentialOk at h
  simp only [Bool.and_eq_true] at h
  exact ⟨h.1.1.1, h.1.1.2, h.1.2, h.2⟩

theorem pay_col_fill (d : List Row) (ml : String) :
    (d.map (fillLocation ml)).map Row.paymentMethod = d.map Row.paymentMethod := by
  rw [List.map_map]
  exact List.map_congr_left fun r _ => rfl

theorem mode_mem_col {l : List RawCell} {m : String}
    (h : modeOf (nonMissing l) = some m) : some m ∈ l := by
  have hm := (modeOf_spec h).1
  unfold nonMissing at hm
  obtain ⟨c, hc, hcm⟩ := List.mem_filterMap.mp hm
  obtain rfl : c = some m := hcm
  exact hc

theorem cleanRows_inv {t : List RawRow} {out : List Row}
    (h : cleanRows t = some out) : ∀ r ∈ out, OutRowInv r := by
  obtain ⟨pre, hpre, rfl⟩ := cleanRows_eq.mp h
  obtain ⟨ml, mp, hml, hmp, rfl⟩ := preDedup_cases hpre
  intro r hr
  have hrpre := (mem_dedupSeen _ _ _).mp hr |>.1
  obtain ⟨r2, hr2, rfl⟩ := List.mem_map.mp hrpre
  obtain ⟨r1, hr1, rfl⟩ := List.mem_map.mp hr2
  obtain ⟨ρ, hρ, rfl⟩ := List.mem_map.mp hr1
  rw [dropStage, List.mem_filter] at hρ
  obtain ⟨hρp, hρok⟩ := hρ
  obtain ⟨hdS, hpS, hqS, hiS⟩ := essentialOk_fields hρok
  obtain ⟨x, hx, rfl⟩ := mem_prepRows hρp
  have hstd := stdRow_transactionDate (coerceRow x)
  -- the essential cells, as produced by coercion
  obtain ⟨dt, hdt⟩ := Option.isSome_iff_exists.mp hdS
  obtain ⟨p, hp⟩ := Option.isSome_iff_exists.mp hpS
  obtain ⟨q, hq⟩ := Option.isSome_iff_exists.mp hqS
  obtain ⟨si, hsi⟩ := Option.isSome_iff_exists.mp hiS
  simp only [stdRow_transactionDate, coerceRow_transactionDate] at hdt
  simp only [stdRow_pricePerUnit, coerceRow_pricePerUnit] at hp
  simp only [stdRow_quantity, coerceRow_quantity] at hq
  simp only [stdRow_item, coerceRow_item] at hsi
  have hdtv : ValidDate dt := by
    obtain ⟨sd, hsd, hpd⟩ := Option.bind_eq_some.mp hdt
    exact parseDate_valid hpd
  have hpD : DecDen p := by
    obtain ⟨sp, hsp, hpp⟩ := Option.bind_eq_some.mp hp
    exact parseNum_decDen hpp
  have hqD : DecDen q := by
    obtain ⟨sq, hsq, hpq⟩ := Option.bind_eq_some.mp hq
    exact parseNum_decDen hpq
  have hsiS : si ∉ nullSentinels := (stdCell_some hsi).2
  refine ⟨⟨dt, ?_, hdtv⟩, ⟨p, ?_, hpD⟩, ⟨q, ?_, hqD⟩, ⟨si, ?_, hsiS⟩,
    ⟨q, p, ?_, ?_, ?_⟩, ?_, ?_, ?_⟩
  · simpa using hdt
  · simpa using hp
  · simpa using hq
  · simpa using hsi
  · simpa using hq
  · simpa using hp
  · refine recalcRow_totalSpent_some ?_ ?_ <;> simp [hq, hp]
  · -- location
    simp only [recalcRow_location, fillPayment_location, fillLocation_location]
    cases hloc : (stdRow (coerceRow x)).location with
    | some s =>
      refine ⟨s, by simp, ?_⟩
      simp only [stdRow_location, coerceRow_location] at hloc
      exact (stdCell_some hloc).2
    | none =>
      refine ⟨ml, by simp, ?_⟩
      have hmem := mode_mem_col hml
      obtain ⟨ρ', hρ', hρloc⟩ := List.mem_map.mp hmem
      rw [dropStage, List.mem_filter] at hρ'
      obtain ⟨x', hx', rfl⟩ := mem_prepRows hρ'.1
      simp only [stdRow_location, coerceRow_location] at hρloc
      exact (stdCell_some hρloc).2
  · -- payment method
    simp only [recalcRow_paymentMethod, fillPayment_paymentMethod,
      fillLocation_paymentMethod]
    cases hpm : (stdRow (coerceRow x)).paymentMethod with
    | some s =>
      refine ⟨s, by simp, ?_⟩
      simp only [stdRow_paymentMethod, coerceRow_paymentMethod] at hpm
      exact (stdCell_some hpm).2
    | none =>
      refine ⟨mp, by simp, ?_⟩
      rw [pay_col_fill] at hmp
      have hmem := mode_mem_col hmp
      obtain ⟨ρ', hρ', hρpm⟩ := List.mem_map.mp hmem
      rw [dropStage, List.mem_filter] at hρ'
      obtain ⟨x', hx', rfl⟩ := mem_prepRows hρ'.1
      simp only [stdRow_paymentMethod, coerceRow_paymentMethod] at hρpm
      exact (stdCell_some hρpm).2
  · -- extra cells are stable under standardization
    simp only [recalcRow_extra, fillPayment_extra, fillLocation_extra,
      stdRow_extra, coerceRow_extra]
    intro c hc
    obtain ⟨c0, hc0, rfl⟩ := List.mem_map.mp hc
    exact stdCell_idem c0

/-! ### Second-run stability -/

theorem row_ext {r s : Row}
    (h1 : r.transactionDate = s.transactionDate)
    (h2 : r.pricePerUnit = s.pricePerUnit)
    (h3 : r.quantity = s.quantity)
    (h4 : r.item = s.item)
    (h5 : r.totalSpent = s.totalSpent)
    (h6 : r.location = s.location)
    (h7 : r.paymentMethod = s.paymentMethod)
    (h8 : r.extra = s.extra) : r = s := by
  cases r
  cases s
  simp_all

theorem mapSelf {α : Type _} {l : List α} {f : α → α}
    (h : ∀ a ∈ l, f a = a) : l.map f = l := by
  induction l with
  | nil => rfl
  | cons a as ih =>
    rw [List.map_cons, h a (List.mem_cons_self a as),
      ih fun x hx => h x (List.mem_cons_of_mem a hx)]

theorem roundTrip_row {r : Row} (h : OutRowInv r) :
    stdRow (coerceRow (printRow r)) = r := by
  obtain ⟨⟨dt, hdt, hdtv⟩, ⟨p, hp, hpD⟩, ⟨q, hq, hqD⟩, ⟨si, hsi, hsiS⟩,
    ⟨q2, p2, hq2, hp2, hts⟩, ⟨sl, hsl, hslS⟩, ⟨sp, hsp, hspS⟩, hex⟩ := h
  have hq2q : q2 = q := by
    rw [hq] at hq2
    injection hq2 with h'
    exact h'.symm
  have hp2p : p2 = p := by
    rw [hp] at hp2
    injection hp2 with h'
    exact h'.symm
  subst hq2q
  subst hp2p
  apply row_ext
  · simp only [stdRow_transactionDate, coerceRow_transactionDate,
      printRow_transactionDate, hdt, Option.map_some', Option.some_bind]
    rw [parseDate_printDate hdtv]
  · simp only [stdRow_pricePerUnit, coerceRow_pricePerUnit, printRow_pricePerUnit,
      hp, Option.map_some', Option.some_bind]
    rw [parseNum_printQ hpD]
  · simp only [stdRow_quantity, coerceRow_quantity, printRow_quantity, hq,
      Option.map_some', Option.some_bind]
    rw [parseNum_printQ hqD]
  · simp only [stdRow_item, coerceRow_item, printRow_item, hsi]
    exact stdCell_not_sentinel hsiS
  · simp only [stdRow_totalSpent, coerceRow_totalSpent, printRow_totalSpent, hts,
      Option.map_some', Option.some_bind]
    rw [parseNum_printQ (decDen_mul hqD hpD)]
  · simp only [stdRow_location, coerceRow_location, printRow_location, hsl]
    exact stdCell_not_sentinel hslS
  · simp only [stdRow_paymentMethod, coerceRow_paymentMethod,
      printRow_paymentMethod, hsp]
    exact stdCell_not_sentinel hspS
  · simp only [stdRow_extra, coerceRow_extra, printRow_extra]
    exact mapSelf hex

theorem essentialOk_of_inv {r : Row} (h : OutRowInv r) : essentialOk r = true := by
  obtain ⟨⟨dt, hdt, _⟩, ⟨p, hp, _⟩, ⟨q, hq, _⟩, ⟨si, hsi, _⟩, _, _, _, _⟩ := h
  unfold essentialOk
  rw [hdt, hp, hq, hsi]
  rfl

theorem fillLocation_id {r : Row} {s : String} (h : r.location = some s)
    (m : String) : fillLocation m r = r := by
  apply row_ext <;> simp [h]

theorem fillPayment_id {r : Row} {s : String} (h : r.paymentMethod = some s)
    (m : String) : fillPayment m r = r := by
  apply row_ext <;> simp [h]

theorem recalcRow_id {r : Row} (h : OutRowInv r) : recalcRow r = r := by
  obtain ⟨_, _, _, _, ⟨q, p, hq, hp, hts⟩, _, _, _⟩ := h
  apply row_ext <;> try rfl
  rw [recalcRow_totalSpent_some hq hp, hts]

theorem prepRows_printRow {out : List Row} (hinv : ∀ r ∈ out, OutRowInv r) :
    prepRows (out.map printRow) = out := by
  unfold prepRows
  rw [List.map_map, List.map_map]
  exact mapSelf fun r hr => roundTrip_row (hinv r hr)

theorem cleanRows_idem {t : List RawRow} {out : List Row}
    (h : cleanRows t = some out) : cleanRows (out.map printRow) = some out := by
  have hinv := cleanRows_inv h
  obtain ⟨pre, hpre, houtd⟩ := cleanRows_eq.mp h
  obtain ⟨ml, mp, hml, hmp, hpreq⟩ := preDedup_cases hpre
  -- the output is nonempty: the location mode existed
  have houtne : out ≠ [] := by
    intro hnil
    subst hnil
    have hprene : pre = [] := by
      cases hpe : pre with
      | nil => rfl
      | cons a as =>
        have : a ∈ dedupSeen [] pre := by
          rw [(mem_dedupSeen pre [] a)]
          exact ⟨hpe ▸ List.mem_cons_self a as, List.not_mem_nil a⟩
        rw [← houtd] at this
        cases this
    rw [hprene] at hpreq
    have hd : dropStage (prepRows t) = [] := by
      cases hde : dropStage (prepRows t) with
      | nil => rfl
      | cons b bs =>
        rw [hde] at hpreq
        exact absurd hpreq.symm (by simp)
    rw [hd] at hml
    simp only [List.map_nil] at hml
    rw [show nonMissing [] = [] from rfl, modeOf_nil] at hml
    exact Option.noConfusion hml
  -- prepRows round-trips, nothing is dropped
  have hprep : prepRows (out.map printRow) = out := prepRows_printRow hinv
  have hdrop : dropStage out = out :=
    List.filter_eq_self.mpr fun r hr => essentialOk_of_inv (hinv r hr)
  -- the second-run location mode exists
  obtain ⟨r0, out', hout0⟩ : ∃ r0 out', out = r0 :: out' := by
    cases out with
    | nil => exact absurd rfl houtne
    | cons a as => exact ⟨a, as, rfl⟩
  obtain ⟨_, _, _, _, _, ⟨sl0, hsl0, _⟩, ⟨sp0, hsp0, _⟩, _⟩ :=
    hinv r0 (hout0 ▸ List.mem_cons_self r0 out')
  have hlocne : nonMissing (out.map Row.location) ≠ [] := by
    have : sl0 ∈ nonMissing (out.map Row.location) := by
      apply List.mem_filterMap.mpr
      exact ⟨some sl0, by
        exact List.mem_map.mpr ⟨r0, hout0 ▸ List.mem_cons_self r0 out', hsl0⟩, rfl⟩
    exact List.ne_nil_of_mem this
  obtain ⟨ml2, hml2⟩ := modeOf_isSome hlocne
  -- the location fill is the identity on the output
  have hfill2 : out.map (fillLocation ml2) = out := by
    refine mapSelf fun r hr => ?_
    obtain ⟨_, _, _, _, _, ⟨sl, hsl, _⟩, _, _⟩ := hinv r hr
    exact fillLocation_id hsl ml2
  have hpayne : nonMissing (out.map Row.paymentMethod) ≠ [] := by
    have : sp0 ∈ nonMissing (out.map Row.paymentMethod) := by
      apply List.mem_filterMap.mpr
      exact ⟨some sp0, by
        exact List.mem_map.mpr ⟨r0, hout0 ▸ List.mem_cons_self r0 out', hsp0⟩, rfl⟩
    exact List.ne_nil_of_mem this
  obtain ⟨mp2, hmp2⟩ := modeOf_isSome hpayne
  have hfill2p : out.map (fillPayment mp2) = out := by
    refine mapSelf fun r hr => ?_
    obtain ⟨_, _, _, _, _, _, ⟨sp, hsp, _⟩, _⟩ := hinv r hr
    exact fillPayment_id hsp mp2
  have hrecalc2 : out.map recalcRow = out := by
    exact mapSelf fun r hr => recalcRow_id (hinv r hr)
  -- assemble the second run
  rw [cleanRows_eq]
  refine ⟨out, ?_, ?_⟩
  · have h1 : modeOf (nonMissing ((dropStage (prepRows (out.map printRow))).map
        Row.location)) = some ml2 := by
      rw [hprep, hdrop]
      exact hml2
    have h2 : modeOf (nonMissing (((dropStage (prepRows (out.map printRow))).map
        (fillLocation ml2)).map Row.paymentMethod)) = some mp2 := by
      rw [hprep, hdrop, hfill2]
      exact hmp2
    have := preDedup_mk h1 h2
    rw [hprep, hdrop, hfill2, hfill2p, hrecalc2] at this
    exact this
  · rw [houtd]
    have hnd : out.Nodup := houtd ▸ dedupSeen_nodup pre []
    rw [← houtd]
    exact (dedupSeen_eq_self out [] hnd fun r _ => List.not_mem_nil r).symm

/-! ### The driver -/

theorem bool_of_not_not {b : Bool} (h : ¬ (!b) = true) : b = true := by
  cases b
  · exact absurd rfl h
  · rfl

theorem clean_data_ok_mk {f : InputFile} {out : List Row}
    (hst : f.status = LoadStatus.ok)
    (hhdr : ∀ c ∈ requiredColumns, f.header.contains c = true)
    (hclean : cleanRows f.rows = some out) :
    clean_data f = RunResult.ok (out.map printRow) := by
  obtain ⟨pre, hpre, rfl⟩ := cleanRows_eq.mp hclean
  obtain ⟨ml, mp, hml, hmp, rfl⟩ := preDedup_cases hpre
  have hfind1 : (numericColumns ++ ["Transaction Date"]).find?
      (fun c => !(f.header.contains c)) = none := by
    rw [List.find?_eq_none]
    intro c hc
    have hcc : f.header.contains c = true := by
      apply hhdr
      simp only [numericColumns, List.mem_append, List.mem_cons,
        List.not_mem_nil, or_false] at hc
      rcases hc with (rfl | rfl | rfl) | rfl <;> simp [requiredColumns]
    rw [hcc]
    simp
  have hfind2 : essentialColumns.find? (fun c => !(f.header.contains c))
      = none := by
    rw [List.find?_eq_none]
    intro c hc
    have hcc : f.header.contains c = true := by
      apply hhdr
      simp only [essentialColumns, List.mem_cons, List.not_mem_nil,
        or_false] at hc
      rcases hc with rfl | rfl | rfl | rfl <;> simp [requiredColumns]
    rw [hcc]
    simp
  have hlc : f.header.contains ("Location") = true := by
    apply hhdr; simp [requiredColumns]
  have hpc : f.header.contains ("Payment Method") = true := by
    apply hhdr; simp [requiredColumns]
  unfold clean_data
  split
  · rename_i hv
    rw [hst] at hv
    exact LoadStatus.noConfusion hv
  · rename_i hv
    rw [hst] at hv
    exact LoadStatus.noConfusion hv
  · split
    · rename_i c hv
      rw [hfind1] at hv
      exact Option.noConfusion hv
    · split
      · rename_i c hv
        rw [hfind2] at hv
        exact Option.noConfusion hv
      · split
        · rename_i hcond
          rw [hlc] at hcond
          simp at hcond
        · split
          · rename_i hv
            rw [hml] at hv
            exact Option.noConfusion hv
          · rename_i ml2 hv
            rw [hml] at hv
            injection hv with hv
            subst hv
            split
            · rename_i hcond
              rw [hpc] at hcond
              simp at hcond
            · split
              · rename_i hv2
                rw [hmp] at hv2
                exact Option.noConfusion hv2
              · rename_i mp2 hv2
                rw [hmp] at hv2
                injection hv2 with hv2
                subst hv2
                rfl

theorem clean_data_ok_iff (f : InputFile) (w : List RawRow) :
    clean_data f = RunResult.ok w ↔
      f.status = LoadStatus.ok ∧
      (∀ c ∈ requiredColumns, f.header.contains c = true) ∧
      ∃ out, cleanRows f.rows = some out ∧ w = out.map printRow := by
  constructor
  · intro h
    unfold clean_data at h
    split at h
    · exact absurd h (by simp)
    · exact absurd h (by simp)
    · rename_i hst
      split at h
      · exact absurd h (by simp)
      · rename_i hfind1
        split at h
        · exact absurd h (by simp)
        · rename_i hfind2
          split at h
          · exact absurd h (by simp)
          · rename_i hloc
            split at h
            · exact absurd h (by simp)
            · rename_i ml hml
              split at h
              · exact absurd h (by simp)
              · rename_i hpay
                split at h
                · exact absurd h (by simp)
                · rename_i mp hmp
                  have hf1 := List.find?_eq_none.mp hfind1
                  have hf2 := List.find?_eq_none.mp hfind2
                  have hlc : f.header.contains ("Location") = true :=
                    bool_of_not_not (by simpa using hloc)
                  have hpc : f.header.contains ("Payment Method") = true :=
                    bool_of_not_not (by simpa using hpay)
                  refine ⟨hst, ?_, ?_⟩
                  · intro c hc
                    simp only [requiredColumns, List.mem_cons,
                      List.not_mem_nil, or_false] at hc
                    rcases hc with rfl | rfl | rfl | rfl | rfl | rfl | rfl
                    · exact bool_of_not_not (hf1 _ (by simp [numericColumns]))
                    · exact bool_of_not_not (hf1 _ (by simp [numericColumns]))
                    · exact bool_of_not_not (hf1 _ (by simp [numericColumns]))
                    · exact bool_of_not_not (hf2 _ (by simp [essentialColumns]))
                    · exact bool_of_not_not (hf1 _ (by simp [numericColumns]))
                    · exact hlc
                    · exact hpc
                  · refine ⟨dedupSeen [] ((((dropStage (prepRows f.rows)).map
                      (fillLocation ml)).map (fillPayment mp)).map recalcRow),
                      ?_, ?_⟩
                    · rw [cleanRows_eq]
                      exact ⟨_, preDedup_mk hml hmp, rfl⟩
                    · injection h with h
                      exact h.symm
  · rintro ⟨hst, hhdr, out, hclean, rfl⟩
    exact clean_data_ok_mk hst hhdr hclean

theorem clean_data_halted {f : InputFile}
    (h : f.status = LoadStatus.fileNotFound) :
    clean_data f = RunResult.haltedGracefully := by
  unfold clean_data
  rw [h]

theorem clean_data_unreadable {f : InputFile}
    (h : f.status = LoadStatus.notReadable) :
    clean_data f = RunResult.crash ("PermissionError") := by
  unfold clean_data
  rw [h]

theorem clean_data_missing_crash {f : InputFile}
    (hst : f.status = LoadStatus.ok)
    (hc : ∃ c ∈ requiredColumns, ¬ f.header.contains c = true) :
    ∃ m, clean_data f = RunResult.crash (keyErrorMsg m) := by
  unfold clean_data
  split
  · rename_i hv
    rw [hst] at hv
    exact LoadStatus.noConfusion hv
  · rename_i hv
    rw [hst] at hv
    exact LoadStatus.noConfusion hv
  · split
    · rename_i c hv
      exact ⟨c, rfl⟩
    · rename_i hf1
      split
      · rename_i c hv
        exact ⟨c, rfl⟩
      · rename_i hf2
        split
        · exact ⟨"Location", rfl⟩
        · rename_i hloc
          split
          · exact ⟨"0", rfl⟩
          · rename_i ml hml2
            split
            · exact ⟨"Payment Method", rfl⟩
            · rename_i hpay
              split
              · exact ⟨"0", rfl⟩
              · rename_i mp hmp2
                exfalso
                obtain ⟨c, hcm, hcn⟩ := hc
                have hf1a := List.find?_eq_none.mp hf1
                have hf2a := List.find?_eq_none.mp hf2
                simp only [requiredColumns, List.mem_cons, List.not_mem_nil,
                  or_false] at hcm
                rcases hcm with rfl | rfl | rfl | rfl | rfl | rfl | rfl
                · exact hcn (bool_of_not_not (hf1a _ (by simp [numericColumns])))
                · exact hcn (bool_of_not_not (hf1a _ (by simp [numericColumns])))
                · exact hcn (bool_of_not_not (hf1a _ (by simp [numericColumns])))
                · exact hcn (bool_of_not_not (hf2a _ (by simp [essentialColumns])))
                · exact hcn (bool_of_not_not (hf1a _ (by simp [numericColumns])))
                · exact hcn (bool_of_not_not (by simpa using hloc))
                · exact hcn (bool_of_not_not (by simpa using hpay))

theorem clean_data_degenerate {f : InputFile}
    (hst : f.status = LoadStatus.ok)
    (hhdr : ∀ c ∈ requiredColumns, f.header.contains c = true)
    (hdeg : nonMissing ((dropStage (prepRows f.rows)).map Row.location) = []
      ∨ nonMissing ((dropStage (prepRows f.rows)).map Row.paymentMethod) = []) :
    clean_data f = RunResult.crash (keyErrorMsg ("0")) := by
  have hlc : f.header.contains ("Location") = true := by
    apply hhdr; simp [requiredColumns]
  have hpc : f.header.contains ("Payment Method") = true := by
    apply hhdr; simp [requiredColumns]
  unfold clean_data
  split
  · rename_i hv
    rw [hst] at hv
    exact LoadStatus.noConfusion hv
  · rename_i hv
    rw [hst] at hv
    exact LoadStatus.noConfusion hv
  · split
    · rename_i c hv
      have hp := List.find?_some hv
      have hm := List.mem_of_find?_eq_some hv
      have hcc : f.header.contains c = true := by
        apply hhdr
        rcases List.mem_append.mp hm with hm1 | hm1
        · simp only [numericColumns, List.mem_cons, List.not_mem_nil,
            or_false] at hm1
          rcases hm1 with rfl | rfl | rfl <;> simp [requiredColumns]
        · simp only [List.mem_cons, List.not_mem_nil, or_false] at hm1
          subst hm1
          simp [requiredColumns]
      rw [hcc] at hp
      simp at hp
    · split
      · rename_i c hv
        have hp := List.find?_some hv
        have hm := List.mem_of_find?_eq_some hv
        have hcc : f.header.contains c = true := by
          apply hhdr
          simp only [essentialColumns, List.mem_cons, List.not_mem_nil,
            or_false] at hm
          rcases hm with rfl | rfl | rfl | rfl <;> simp [requiredColumns]
        rw [hcc] at hp
        simp at hp
      · split
        · rename_i hcond
          rw [hlc] at hcond
          simp at hcond
        · split
          · rfl
          · rename_i ml hml
            rcases hdeg with hdeg | hdeg
            · rw [hdeg, modeOf_nil] at hml
              exact Option.noConfusion hml
            · split
              · rename_i hcond
                rw [hpc] at hcond
                simp at hcond
              · split
                · rfl
                · rename_i mp hmp
                  rw [pay_col_fill, hdeg, modeOf_nil] at hmp
                  exact Option.noConfusion hmp

theorem clean_data_idem {f : InputFile} {w : List RawRow}
    (h : clean_data f = RunResult.ok w) :
    clean_data ⟨LoadStatus.ok, f.header, w⟩ = RunResult.ok w := by
  obtain ⟨hst, hhdr, out, hclean, rfl⟩ := (clean_data_ok_iff f _).mp h
  exact clean_data_ok_mk rfl hhdr (cleanRows_idem hclean)

theorem filter_length_countP (l : List Row) :
    (l.filter essentialOk).length
      + l.countP (fun r => !(essentialOk r)) = l.length := by
  induction l with
  | nil => rfl
  | cons a as ih =>
    rw [List.filter_cons, List.countP_cons]
    cases ha : essentialOk a
    · simp only [ha, Bool.not_false, if_true, if_false, Bool.false_eq_true,
        List.length_cons]
      omega
    · simp only [ha, Bool.not_true, if_true, if_false, Bool.false_eq_true,
        List.length_cons]
      omega

/-! ### Concrete tables -/

/-- A small dirty table: a sentinel Total Spent and Location, a null Total,
an unparseable Total, a row with an empty Item (dropped), and an exact
duplicate row. -/
def sampleRaw : List RawRow :=
  [⟨some ("2023-01-01"), some ("3.5"), some ("2"), some ("Coffee"),
    some ("ERROR"), some ("UNKNOWN"), some ("Cash"), []⟩,
   ⟨some ("2023-01-02"), some ("2.0"), some ("1"), some ("Tea"),
    none, some ("b"), some ("Card"), []⟩,
   ⟨some ("2023-01-03"), some ("2.0"), some ("1"), some ("Brownie"),
    some ("x"), some ("a"), some ("Card"), []⟩,
   ⟨some ("2023-01-04"), some ("1.0"), some ("1"), some (""),
    none, none, none, []⟩,
   ⟨some ("2023-01-02"), some ("2.0"), some ("1"), some ("Tea"),
    none, some ("b"), some ("Card"), []⟩]

/-- The cleaned table the pipeline produces from `sampleRaw`. -/
def sampleOut : List Row :=
  [⟨some ⟨2023, 1, 1⟩, some ((7 : ℚ) / 2), some 2, some ("Coffee"),
    some 7, some ("b"), some ("Cash"), []⟩,
   ⟨some ⟨2023, 1, 2⟩, some 2, some 1, some ("Tea"),
    some 2, some ("b"), some ("Card"), []⟩,
   ⟨some ⟨2023, 1, 3⟩, some 2, some 1, some ("Brownie"),
    some 2, some ("a"), some ("Card"), []⟩]

/-- A table whose Location column has a tie between `"b"` (seen first) and
`"a"`: pandas `mode()[0]` picks `"a"`. -/
def tieRaw : List RawRow :=
  [⟨some ("2023-01-01"), some ("1.0"), some ("1"), some ("A"),
    none, some ("b"), some ("Cash"), []⟩,
   ⟨some ("2023-01-02"), some ("1.0"), some ("1"), some ("B"),
    none, some ("a"), some ("Cash"), []⟩,
   ⟨some ("2023-01-03"), some ("1.0"), some ("1"), some ("C"),
    none, none, some ("Cash"), []⟩]

/-- The cleaned tie-break table. -/
def tieOut : List Row :=
  [⟨some ⟨2023, 1, 1⟩, some 1, some 1, some ("A"),
    some 1, some ("b"), some ("Cash"), []⟩,
   ⟨some ⟨2023, 1, 2⟩, some 1, some 1, some ("B"),
    some 1, some ("a"), some ("Cash"), []⟩,
   ⟨some ⟨2023, 1, 3⟩, some 1, some 1, some ("C"),
    some 1, some ("a"), some ("Cash"), []⟩]

/-- The input file used by the witnesses. -/
def sampleFile : InputFile := ⟨LoadStatus.ok, requiredColumns, sampleRaw⟩

/-- The CSV written by the pipeline for `sampleFile`. -/
def sampleWritten : List RawRow := sampleOut.map printRow

/-- A table whose Location column is entirely missing after the essential
drop ('UNKNOWN' is standardized to the missing marker). -/
def degenRaw : List RawRow :=
  [⟨some ("2023-01-01"), some ("1.0"), some ("1"), some ("A"),
    none, some ("UNKNOWN"), some ("Cash"), []⟩]

/-- The tie-break rule claimed by the spec (not the one pandas implements):
the value first encountered, in the order of the column's non-missing
values, among the most frequent ones. -/
def specFirstEncounteredMode (l : List String) : Option String :=
  (l.filter (fun v => l.count v
    == (l.map (fun v => l.count v)).foldr max 0)).head?

theorem essentialOk_iff (r : Row) :
    essentialOk r = true ↔ (r.transactionDate ≠ none ∧ r.pricePerUnit ≠ none ∧
      r.quantity ≠ none ∧ r.item ≠ none) := by
  unfold essentialOk
  simp only [Bool.and_eq_true, Option.isSome_iff_ne_none]
  tauto

/-! ### The claims -/

/-- C1: for every output row, Total Spent is exactly the product of the
coerced Quantity and Price Per Unit; the recalculation overwrites whatever
Total Spent held before, for every row surviving the essential drop. -/
theorem C1_total_spent_recomputed (t : List RawRow) (out : List Row)
    (h : cleanRows t = some out) :
    (∀ r ∈ out, ∃ q p, r.quantity = some q ∧ r.pricePerUnit = some p ∧
      r.totalSpent = some (q * p)) ∧
    (∀ (r : Row) (v : Option ℚ),
      (recalcRow { r with totalSpent := v }).totalSpent
        = (recalcRow r).totalSpent) := by
  refine ⟨?_, fun r v => recalcRow_totalSpent_irrelevant r v⟩
  intro r hr
  obtain ⟨_, _, _, _, hts, _, _, _⟩ := cleanRows_inv h r hr
  exact hts

theorem C1_witness :
    cleanRows sampleRaw = some sampleOut ∧
    ∀ r ∈ sampleOut, ∃ q p, r.quantity = some q ∧ r.pricePerUnit = some p ∧
      r.totalSpent = some (q * p) := by
  have hc : cleanRows sampleRaw = some sampleOut := by
    set_option maxRecDepth 40000 in with_unfolding_all decide
  exact ⟨hc, (C1_total_spent_recomputed sampleRaw sampleOut hc).1⟩

/-- C2: the Row Repairer keeps exactly the prepared rows whose four
essential cells are all present, and every output row has all four
essential cells present. -/
theorem C2_essential_drop (t : List RawRow) (out : List Row)
    (h : cleanRows t = some out) :
    (∀ r : Row, r ∈ dropStage (prepRows t) ↔ r ∈ prepRows t ∧
      (r.transactionDate ≠ none ∧ r.pricePerUnit ≠ none ∧
        r.quantity ≠ none ∧ r.item ≠ none)) ∧
    (∀ r ∈ out, r.transactionDate ≠ none ∧ r.pricePerUnit ≠ none ∧
      r.quantity ≠ none ∧ r.item ≠ none) := by
  constructor
  · intro r
    rw [dropStage, List.mem_filter, essentialOk_iff]
  · intro r hr
    obtain ⟨⟨dt, hdt, _⟩, ⟨p, hp, _⟩, ⟨q, hq, _⟩, ⟨si, hsi, _⟩, _, _, _, _⟩ :=
      cleanRows_inv h r hr
    rw [hdt, hp, hq, hsi]
    refine ⟨?_, ?_, ?_, ?_⟩ <;> simp

theorem C2_witness :
    cleanRows sampleRaw = some sampleOut ∧
    ∀ r ∈ sampleOut, r.transactionDate ≠ none ∧ r.pricePerUnit ≠ none ∧
      r.quantity ≠ none ∧ r.item ≠ none := by
  have hc : cleanRows sampleRaw = some sampleOut := by
    set_option maxRecDepth 40000 in with_unfolding_all decide
  exact ⟨hc, (C2_essential_drop sampleRaw sampleOut hc).2⟩

/-- C3 counterexample: on `tieRaw` the Location column's most frequent
values are tied between `"b"` (first encountered) and `"a"`; the claimed
tie-break picks `"b"`, but the pipeline (pandas sorted `mode()[0]`) fills
the missing cell with `"a"`. -/
theorem C3_counterexample :
    specFirstEncounteredMode
      (nonMissing ((dropStage (prepRows tieRaw)).map Row.location))
        = some ("b") ∧
    modeOf (nonMissing ((dropStage (prepRows tieRaw)).map Row.location))
      = some ("a") ∧
    cleanRows tieRaw = some tieOut ∧
    (∃ r ∈ tieOut, r.location = some ("a")) ∧
    ("a" : String) ≠ "b" := by
  set_option maxRecDepth 40000 in with_unfolding_all decide

/-- C3 (amended): each contextual column is filled with its pandas mode:
every missing cell becomes the mode, present cells are unchanged, and the
mode is a most frequent value of the column's non-missing values after the
drop, with ties broken in favour of the smallest value in ascending sort
order (not the first encountered). -/
theorem C3_amended_mode_fill (t : List RawRow) (out : List Row)
    (h : cleanRows t = some out) :
    ∃ ml mp,
      modeOf (nonMissing ((dropStage (prepRows t)).map Row.location))
        = some ml ∧
      modeOf (nonMissing ((dropStage (prepRows t)).map Row.paymentMethod))
        = some mp ∧
      out = dedupSeen [] ((((dropStage (prepRows t)).map (fillLocation ml)).map
        (fillPayment mp)).map recalcRow) ∧
      (∀ r : Row, (fillLocation ml r).location
        = if r.location = none then some ml else r.location) ∧
      (∀ r : Row, (fillPayment mp r).paymentMethod
        = if r.paymentMethod = none then some mp else r.paymentMethod) ∧
      (∀ (l : List String) (m : String), modeOf l = some m →
        m ∈ l ∧ (∀ v ∈ l, l.count v ≤ l.count m) ∧
        (∀ v ∈ l, l.count v = l.count m → ¬ v < m)) ∧
      (∀ r ∈ out, r.location ≠ none ∧ r.paymentMethod ≠ none) := by
  obtain ⟨pre, hpre, rfl⟩ := cleanRows_eq.mp h
  obtain ⟨ml, mp, hml, hmp, rfl⟩ := preDedup_cases hpre
  rw [pay_col_fill] at hmp
  refine ⟨ml, mp, hml, hmp, rfl, ?_, ?_, fun l m hm => modeOf_spec hm, ?_⟩
  · intro r
    cases hr : r.location <;> simp [hr]
  · intro r
    cases hr : r.paymentMethod <;> simp [hr]
  · intro r hr
    obtain ⟨_, _, _, _, _, ⟨sl, hsl, _⟩, ⟨sp, hsp, _⟩, _⟩ :=
      cleanRows_inv h r hr
    rw [hsl, hsp]
    constructor <;> simp

theorem C3_witness :
    ∃ ml mp,
      modeOf (nonMissing ((dropStage (prepRows tieRaw)).map Row.location))
        = some ml ∧
      modeOf (nonMissing ((dropStage (prepRows tieRaw)).map Row.paymentMethod))
        = some mp ∧
      tieOut = dedupSeen [] ((((dropStage (prepRows tieRaw)).map
        (fillLocation ml)).map (fillPayment mp)).map recalcRow) ∧
      (∀ r : Row, (fillLocation ml r).location
        = if r.location = none then some ml else r.location) ∧
      (∀ r : Row, (fillPayment mp r).paymentMethod
        = if r.paymentMethod = none then some mp else r.paymentMethod) ∧
      (∀ (l : List String) (m : String), modeOf l = some m →
        m ∈ l ∧ (∀ v ∈ l, l.count v ≤ l.count m) ∧
        (∀ v ∈ l, l.count v = l.count m → ¬ v < m)) ∧
      (∀ r ∈ tieOut, r.location ≠ none ∧ r.paymentMethod ≠ none) :=
  C3_amended_mode_fill tieRaw tieOut
    (by set_option maxRecDepth 40000 in with_unfolding_all decide)

/-- C4: deduplication keeps exactly the first occurrence of each distinct
row (full-row equality, extras included), preserves relative order, and the
output has no two identical rows. -/
theorem C4_dedup_keep_first (t : List RawRow) (out : List Row)
    (h : cleanRows t = some out) :
    out.Nodup ∧
    (∃ pre, preDedup t = some pre ∧ out = dedupSeen [] pre) ∧
    (∀ (l : List Row) (r : Row), r ∈ dedupSeen [] l ↔ r ∈ l) ∧
    (∀ l : List Row, (dedupSeen [] l).Sublist l) ∧
    (∀ (a : Row) (rs : List Row), dedupSeen [] (a :: rs)
      = a :: dedupSeen [] (rs.filter (fun x => !(x == a)))) := by
  obtain ⟨pre, hpre, rfl⟩ := cleanRows_eq.mp h
  refine ⟨dedupSeen_nodup pre [], ⟨pre, hpre, rfl⟩, ?_, fun l => dedupSeen_sublist l [],
    fun a rs => dedupSeen_keepFirst a rs⟩
  intro l r
  rw [mem_dedupSeen]
  simp

theorem C4_witness :
    cleanRows sampleRaw = some sampleOut ∧ sampleOut.Nodup := by
  have hc : cleanRows sampleRaw = some sampleOut := by
    set_option maxRecDepth 40000 in with_unfolding_all decide
  exact ⟨hc, (C4_dedup_keep_first sampleRaw sampleOut hc).1⟩

/-- C5: on any input file the pipeline accepts, a second run on the file it
wrote changes nothing: it succeeds and writes the byte-identical file. -/
theorem C5_pipeline_idempotent (f : InputFile) (w : List RawRow)
    (h : clean_data f = RunResult.ok w) :
    clean_data ⟨LoadStatus.ok, f.header, w⟩ = RunResult.ok w :=
  clean_data_idem h

theorem C5_witness :
    clean_data ⟨LoadStatus.ok, requiredColumns, sampleWritten⟩
      = RunResult.ok sampleWritten :=
  C5_pipeline_idempotent sampleFile sampleWritten
    (by set_option maxRecDepth 40000 in with_unfolding_all decide)

/-- C6: the output has at most as many rows as the input, and the deficit
is exactly the rows dropped for a missing essential value plus the
duplicate rows found after cleaning. -/
theorem C6_row_count (t : List RawRow) (pre : List Row)
    (h : preDedup t = some pre) :
    ∃ out, cleanRows t = some out ∧
      out.length ≤ t.length ∧
      out.length + droppedCount t + dupCountSeen [] pre = t.length := by
  obtain ⟨ml, mp, hml, hmp, hpre⟩ := preDedup_cases h
  have hlen1 : pre.length = (dropStage (prepRows t)).length := by
    rw [hpre]
    simp
  have hlen2 : (prepRows t).length = t.length := by
    unfold prepRows
    simp
  have hlen3 := filter_length_countP (prepRows t)
  have hlen4 := dedupSeen_length pre []
  have heq : (dedupSeen [] pre).length + droppedCount t
      + dupCountSeen [] pre = t.length := by
    unfold droppedCount
    unfold dropStage at hlen1
    omega
  exact ⟨dedupSeen [] pre, cleanRows_eq.mpr ⟨pre, h, rfl⟩, by omega, heq⟩

theorem C6_witness :
    ∃ out, cleanRows sampleRaw = some out ∧
      out.length ≤ sampleRaw.length ∧
      out.length + droppedCount sampleRaw
        + dupCountSeen [] ((((dropStage (prepRows sampleRaw)).map
          (fillLocation ("b"))).map (fillPayment ("Card"))).map recalcRow)
        = sampleRaw.length :=
  C6_row_count sampleRaw _
    (by set_option maxRecDepth 40000 in with_unfolding_all decide)

/-- C7 counterexample: an existing but unreadable input path is NOT
handled gracefully: only `FileNotFoundError` is caught, so the
`PermissionError` of `pd.read_csv` is an unhandled fault. -/
theorem C7_counterexample :
    clean_data ⟨LoadStatus.notReadable, requiredColumns, sampleRaw⟩
      = RunResult.crash ("PermissionError") ∧
    clean_data ⟨LoadStatus.notReadable, requiredColumns, sampleRaw⟩
      ≠ RunResult.haltedGracefully := by
  with_unfolding_all decide

/-- C7 (amended): when the input path does not exist the failure is caught,
reported, and the pipeline returns before any transform with no output
file; but an existing, unreadable path raises an unhandled
`PermissionError` instead of halting gracefully. -/
theorem C7_amended (f : InputFile) (h : f.status = LoadStatus.fileNotFound) :
    clean_data f = RunResult.haltedGracefully ∧
    ∀ g : InputFile, g.status = LoadStatus.notReadable →
      clean_data g = RunResult.crash ("PermissionError") :=
  ⟨clean_data_halted h, fun _ hg => clean_data_unreadable hg⟩

theorem C7_witness :
    clean_data ⟨LoadStatus.fileNotFound, requiredColumns, sampleRaw⟩
      = RunResult.haltedGracefully ∧
    ∀ g : InputFile, g.status = LoadStatus.notReadable →
      clean_data g = RunResult.crash ("PermissionError") :=
  C7_amended ⟨LoadStatus.fileNotFound, requiredColumns, sampleRaw⟩ rfl

/-- C8: the null standardizer replaces a cell iff it exactly equals one of
the four sentinels, in every column; near-misses (different case, extra
whitespace, superstrings) are left unchanged, as is every other cell. -/
theorem C8_null_standardizer :
    (∀ c : RawCell, stdCell c = none ↔
      c = none ∨ ∃ s, c = some s ∧ s ∈ nullSentinels) ∧
    (∀ s : String, s ∉ nullSentinels → stdCell (some s) = some s) ∧
    nullSentinels = ["", " ", "UNKNOWN", "ERROR"] ∧
    (∀ r : Row, (stdRow r).item = stdCell r.item ∧
      (stdRow r).location = stdCell r.location ∧
      (stdRow r).paymentMethod = stdCell r.paymentMethod ∧
      (stdRow r).extra = r.extra.map stdCell ∧
      (stdRow r).transactionDate = r.transactionDate ∧
      (stdRow r).pricePerUnit = r.pricePerUnit ∧
      (stdRow r).quantity = r.quantity ∧
      (stdRow r).totalSpent = r.totalSpent) ∧
    stdCell (some ("unknown")) = some ("unknown") ∧
    stdCell (some (" UNKNOWN ")) = some (" UNKNOWN ") ∧
    stdCell (some ("ERRORS")) = some ("ERRORS") ∧
    stdCell (some ("UNKNOWN")) = none ∧ stdCell (some ("")) = none ∧
    stdCell (some (" ")) = none ∧ stdCell (some ("ERROR")) = none := by
  refine ⟨stdCell_eq_none_iff, fun s hs => stdCell_not_sentinel hs, rfl,
    fun r => ⟨rfl, rfl, rfl, rfl, rfl, rfl, rfl, rfl⟩, ?_, ?_, ?_, ?_, ?_, ?_, ?_⟩
  all_goals with_unfolding_all decide

/-- C9: if a contextual column has no non-missing value left after the
essential drop, `mode()[0]` raises an unhandled `KeyError: 0`; the run
terminates with no user-facing diagnostic and no output file. -/
theorem C9_degenerate_mode_crash (f : InputFile)
    (hst : f.status = LoadStatus.ok)
    (hhdr : ∀ c ∈ requiredColumns, f.header.contains c = true)
    (hdeg : nonMissing ((dropStage (prepRows f.rows)).map Row.location) = []
      ∨ nonMissing ((dropStage (prepRows f.rows)).map Row.paymentMethod) = []) :
    clean_data f = RunResult.crash (keyErrorMsg ("0")) ∧
    ∀ w, clean_data f ≠ RunResult.ok w := by
  have hc := clean_data_degenerate hst hhdr hdeg
  refine ⟨hc, fun w hw => ?_⟩
  rw [hc] at hw
  exact RunResult.noConfusion hw

theorem C9_witness :
    clean_data ⟨LoadStatus.ok, requiredColumns, degenRaw⟩
      = RunResult.crash (keyErrorMsg ("0")) ∧
    ∀ w, clean_data ⟨LoadStatus.ok, requiredColumns, degenRaw⟩
      ≠ RunResult.ok w :=
  C9_degenerate_mode_crash ⟨LoadStatus.ok, requiredColumns, degenRaw⟩ rfl
    (by with_unfolding_all decide)
    (Or.inl (by set_option maxRecDepth 40000 in with_unfolding_all decide))

/-- C10: with a header lacking one of the seven named columns, the run
raises an unhandled `KeyError` before any output file is written; the run
completes only if all seven columns are present. -/
theorem C10_missing_column_keyerror (f : InputFile)
    (hst : f.status = LoadStatus.ok)
    (hc : ∃ c ∈ requiredColumns, ¬ f.header.contains c = true) :
    (∃ m, clean_data f = RunResult.crash (keyErrorMsg m)) ∧
    ∀ w, clean_data f ≠ RunResult.ok w := by
  obtain ⟨m, hm⟩ := clean_data_missing_crash hst hc
  refine ⟨⟨m, hm⟩, fun w hw => ?_⟩
  rw [hm] at hw
  exact RunResult.noConfusion hw

theorem C10_witness :
    (∃ m, clean_data ⟨LoadStatus.ok, ["Transaction Date", "Price Per Unit",
      "Quantity", "Total Spent", "Location", "Payment Method"], sampleRaw⟩
        = RunResult.crash (keyErrorMsg m)) ∧
    ∀ w, clean_data ⟨LoadStatus.ok, ["Transaction Date", "Price Per Unit",
      "Quantity", "Total Spent", "Location", "Payment Method"], sampleRaw⟩
        ≠ RunResult.ok w :=
  C10_missing_column_keyerror _ rfl
    ⟨"Item", by with_unfolding_all decide, by with_unfolding_all decide⟩
